import Mathlib

/-!
Verification of `set.Set[T]` (package `set`, file `set/set.go`)

The Go type `Set[T comparable]` wraps a single field `items map[T]struct{}`.
The embedding below keeps the features of a Go map that the methods rely on:

* a map value is either the `nil` map or an allocated table; reading (`m[k]`, `len`,
  `range`, `delete`) is defined on both, while writing `m[k] = v` into the `nil` map is a
  run-time panic;
* keys are found with `==`.  No two keys of a table are `==`, and a key that differs from
  itself (a floating-point NaN) is never found: `m[NaN] = v` adds an entry every time,
  `m[NaN]` reports absence, `delete(m, NaN)` removes nothing.  `Comparable.selfEq` is the
  result of `x == x`;
* `range` visits every key once.  The key list of the model is stored in the order
  in which `range` visits it, so quantifying over all sets quantifies over every
  visiting order as well;
* every value of the element type can be hashed.  An interface type such as `any`, whose
  values may hold a slice, map or function and then make every map operation panic, is
  outside the model.

A `Set T` is the struct a non-nil `*Set[T]` points to, its zero value (`nil` map)
included.

Methods that mutate their receiver are functions returning the new receiver.
A run-time panic is the value `none`.  What a call returns is stated on these
value-level functions; that a call leaves other sets alone is stated on a second
embedding of the same methods, on an explicit heap of structs and map objects.
`Len` is an `Int` (Go `int`); a map never holds anywhere near `2^63` keys, so no
wrap-around is modelled.
-/

namespace GoxSet

/-- Go's `comparable` constraint, so far as a map needs it.  Values of `T` are taken up to
`==`: two values that are `==` are one value of `T` (for `float64`, `+0` and `-0`).
`selfEq x` is the result of `x == x`: `false` for the values that differ from themselves (a
floating-point NaN, or a struct or array holding one), `true` for every other value. -/
class Comparable (T : Type) where
  selfEq : T → Bool

/-- Go `float64` as a map key: the NaN, which differs from itself, or an ordinary number. -/
inductive GoFloat where
  | NaN : GoFloat
  | num (n : Int) : GoFloat
  deriving DecidableEq

/-- Go `==` on `float64`: every value but NaN equals itself. -/
instance : Comparable GoFloat where
  selfEq x := match x with
    | GoFloat.NaN => false
    | GoFloat.num _ => true

/-- Go `==` on `int`: every value equals itself. -/
instance : Comparable Nat where
  selfEq _ := true

variable {T : Type} [DecidableEq T] [Comparable T]

/-- Go `a == b` on a `comparable` type. -/
def goEq (a b : T) : Bool := decide (a = b) && Comparable.selfEq a

/-- Allocated key table of a `map[T]struct{}`: the keys in `range` order, no two of them
`==`. -/
abbrev Keys (T : Type) [DecidableEq T] [Comparable T] :=
  { l : List T // l.Pairwise (fun a b => goEq a b = false) }

/-- Go value `map[T]struct{}`: `none` is the `nil` map, `some ks` an allocated table. -/
abbrev GoMap (T : Type) [DecidableEq T] [Comparable T] := Option (Keys T)

/-- Result of `make(map[T]struct{})`: an allocated table without keys. -/
def GoMap.make : GoMap T := some ⟨[], List.Pairwise.nil⟩

/-- Keys visited by `for k := range m`; the `nil` map is ranged over zero times. -/
def GoMap.range : GoMap T → List T
  | none => []
  | some ks => ks.val

/-- Go builtin `len(m)`. -/
def GoMap.len (m : GoMap T) : Int := (GoMap.range m).length

/-- Second result of `_, exists := m[k]`: whether some key of the map is `==` to `k`. -/
def GoMap.has (m : GoMap T) (k : T) : Bool := (GoMap.range m).any (fun a => goEq a k)

/-- Key table after storing key `k`: unchanged when some key is `==` to `k`, otherwise one
more key. -/
def Keys.store (ks : Keys T) (k : T) : Keys T :=
  if h : ks.val.any (fun a => goEq a k) = true then ks
  else ⟨ks.val ++ [k], by
    rw [List.pairwise_append]
    refine ⟨ks.property, List.pairwise_singleton _ k, ?_⟩
    intro a ha b hb
    rw [List.mem_singleton] at hb
    subst hb
    cases hab : goEq a b with
    | false => rfl
    | true => exact absurd (List.any_eq_true.mpr ⟨a, ha, hab⟩) h⟩

/-- Go statement `m[k] = struct{}{}`: panics (`none`) on the `nil` map. -/
def GoMap.assign (m : GoMap T) (k : T) : Option (GoMap T) :=
  match m with
  | none => none
  | some ks => some (some (Keys.store ks k))

/-- Key table after deleting key `k`: the key `==` to `k`, if there is one, is gone. -/
def Keys.remove (ks : Keys T) (k : T) : Keys T :=
  ⟨ks.val.filter (fun a => !goEq a k), ks.property.filter _⟩

/-- Go builtin `delete(m, k)`: a no-op on the `nil` map and when no key is `==` to `k`. -/
def GoMap.delete (m : GoMap T) (k : T) : GoMap T :=
  match m with
  | none => none
  | some ks => some (Keys.remove ks k)

/-- Go `type Set[T comparable] struct { items map[T]struct{} }`. -/
structure Set (T : Type) [DecidableEq T] [Comparable T] where
  items : GoMap T

/-- Go `func New[T comparable]() *Set[T]`. -/
def New : Set T := ⟨GoMap.make⟩

/-- Go `func (s *Set[T]) Add(element T)`; returns the receiver after the call. -/
def Set.Add (s : Set T) (element : T) : Option (Set T) :=
  (GoMap.assign s.items element).map (fun m => ⟨m⟩)

/-- Go `func (s *Set[T]) Remove(element T)`; returns the receiver after the call. -/
def Set.Remove (s : Set T) (element : T) : Set T := ⟨GoMap.delete s.items element⟩

/-- Go `func (s *Set[T]) Contains(element T) bool`. -/
def Set.Contains (s : Set T) (element : T) : Bool := GoMap.has s.items element

/-- Go `func (s *Set[T]) Len() int`. -/
def Set.Len (s : Set T) : Int := GoMap.len s.items

/-- Go `func (s *Set[T]) IsEmpty() bool`. -/
def Set.IsEmpty (s : Set T) : Bool := decide (GoMap.len s.items = 0)

/-- Go `func (s *Set[T]) Clear()`; returns the receiver after the call. -/
def Set.Clear (_s : Set T) : Set T := ⟨GoMap.make⟩

/-- Go `func Of[T comparable](elements ...T) *Set[T]`. -/
def Of (elements : List T) : Option (Set T) :=
  elements.foldlM (fun s elem => Set.Add s elem) New

/-- Go `func (s *Set[T]) ToSlice() []T`. -/
def Set.ToSlice (s : Set T) : List T :=
  (GoMap.range s.items).foldl (fun result elem => result ++ [elem]) []

/-- Go `func (s *Set[T]) Clone() *Set[T]`. -/
def Set.Clone (s : Set T) : Option (Set T) :=
  (GoMap.range s.items).foldlM (fun clone elem => Set.Add clone elem) New

/-- Go `func (s *Set[T]) Union(other *Set[T]) *Set[T]`. -/
def Set.Union (s other : Set T) : Option (Set T) := do
  let result ← s.Clone
  (GoMap.range other.items).foldlM (fun result elem => Set.Add result elem) result

/-- Loop of `Intersection` once `smaller` and `larger` are chosen: starting from `New`,
every key of `smaller` that `larger` contains is added. -/
def intersectionLoop (smaller larger : Set T) : Option (Set T) :=
  (GoMap.range smaller.items).foldlM
    (fun result elem => if larger.Contains elem then Set.Add result elem else some result) New

/-- Go `func (s *Set[T]) Intersection(other *Set[T]) *Set[T]`. -/
def Set.Intersection (s other : Set T) : Option (Set T) :=
  if other.Len < s.Len then intersectionLoop other s else intersectionLoop s other

/-- Go `func (s *Set[T]) Difference(other *Set[T]) *Set[T]`. -/
def Set.Difference (s other : Set T) : Option (Set T) :=
  (GoMap.range s.items).foldlM
    (fun result elem => if !other.Contains elem then Set.Add result elem else some result) New

/-- Go `func (s *Set[T]) SymmetricDifference(other *Set[T]) *Set[T]`. -/
def Set.SymmetricDifference (s other : Set T) : Option (Set T) := do
  let result ← (GoMap.range s.items).foldlM
    (fun result elem => if !other.Contains elem then Set.Add result elem else some result) New
  (GoMap.range other.items).foldlM
    (fun result elem => if !s.Contains elem then Set.Add result elem else some result) result

/-- Go `func (s *Set[T]) IsSubset(other *Set[T]) bool`. -/
def Set.IsSubset (s other : Set T) : Bool :=
  if s.Len > other.Len then false
  else (GoMap.range s.items).all (fun elem => other.Contains elem)

/-- Go `func (s *Set[T]) IsSuperset(other *Set[T]) bool`. -/
def Set.IsSuperset (s other : Set T) : Bool := other.IsSubset s

/-- Go `func (s *Set[T]) Equal(other *Set[T]) bool`. -/
def Set.Equal (s other : Set T) : Bool :=
  if s.Len ≠ other.Len then false
  else (GoMap.range s.items).all (fun elem => other.Contains elem)

/-- Go `func (s *Set[T]) ForEach(fn func(T))`; the visitor updates a caller state `σ`. -/
def Set.ForEach {σ : Type} (s : Set T) (fn : σ → T → σ) (init : σ) : σ :=
  (GoMap.range s.items).foldl fn init

/-- Go `func (s *Set[T]) Filter(predicate func(T) bool) *Set[T]`. -/
def Set.Filter (s : Set T) (predicate : T → Bool) : Option (Set T) :=
  (GoMap.range s.items).foldlM
    (fun result elem => if predicate elem then Set.Add result elem else some result) New

/-- Whether every element stored in `s` equals itself under `==`, that is, whether `s` holds
no NaN. -/
def Set.selfEqual (s : Set T) : Bool := (GoMap.range s.items).all (fun k => goEq k k)

/-! ## The same methods on a heap

The functions above pass sets by value, which is enough to say what a call returns.  Whether
a call changes a set it was not asked to change is a question about sharing: a `*Set[T]` is
an address, and the `items` field is a reference to a map object.  The definitions below
repeat the mutating methods, and the methods built from them, on an explicit heap.  Methods
that only read are the value-level ones applied to what the pointer refers to.  A `range`
loop visits the keys found when the loop starts; the frame theorems show that no loop of
this file writes to the map it ranges over.
-/

/-- Go `*Set[T]`: the address of a `Set` struct. -/
abbrev Ptr := Nat

/-- The heap: the map objects and the `Set` structs allocated so far.  A map reference is a
position in `maps`; a struct is its `items` field, `none` for the `nil` map; a `*Set[T]` is a
position in `sets`. -/
structure Heap (T : Type) [DecidableEq T] [Comparable T] where
  maps : List (Keys T)
  sets : List (Option Nat)

/-- The value of `*s`, with the map its `items` field refers to read out of the heap.
The result is `none` when `s` is not the address of a struct (a nil dereference). -/
def Heap.deref (h : Heap T) (s : Ptr) : Option (Set T) :=
  match h.sets[s]? with
  | none => none
  | some none => some ⟨none⟩
  | some (some a) => (h.maps[a]?).map (fun ks => ⟨some ks⟩)

/-- Heap with the map object at address `a` replaced by `ks`. -/
def Heap.withMap (h : Heap T) (a : Nat) (ks : Keys T) : Heap T := ⟨h.maps.set a ks, h.sets⟩

/-- Go `New[T]()`: a new map object and a new struct referring to it; returns the address of
the struct. -/
def Heap.New (h : Heap T) : Heap T × Ptr :=
  (⟨h.maps ++ [⟨[], List.Pairwise.nil⟩], h.sets ++ [some h.maps.length]⟩, h.sets.length)

/-- Go `s.Add(element)`: writes into the map object `s.items` refers to. -/
def Heap.Add (h : Heap T) (s : Ptr) (element : T) : Option (Heap T) :=
  match h.sets[s]? with
  | some (some a) =>
    match h.maps[a]? with
    | some ks => some (h.withMap a (Keys.store ks element))
    | none => none
  | _ => none

/-- Go `s.Remove(element)`: deletes from the map object `s.items` refers to. -/
def Heap.Remove (h : Heap T) (s : Ptr) (element : T) : Option (Heap T) :=
  match h.sets[s]? with
  | none => none
  | some none => some h
  | some (some a) =>
    match h.maps[a]? with
    | some ks => some (h.withMap a (Keys.remove ks element))
    | none => none

/-- Go `s.Clear()`: makes a new map object and stores its reference in the field `s.items`. -/
def Heap.Clear (h : Heap T) (s : Ptr) : Option (Heap T) :=
  if s < h.sets.length then
    some ⟨h.maps ++ [⟨[], List.Pairwise.nil⟩], h.sets.set s (some h.maps.length)⟩
  else none

/-- Go `s.Contains(element)` through a pointer. -/
def Heap.Contains (h : Heap T) (s : Ptr) (element : T) : Option Bool :=
  (h.deref s).map (fun v => v.Contains element)

/-- Go `s.Len()` through a pointer. -/
def Heap.Len (h : Heap T) (s : Ptr) : Option Int := (h.deref s).map (fun v => v.Len)

/-- Go `s.Equal(other)` through pointers. -/
def Heap.Equal (h : Heap T) (s other : Ptr) : Option Bool := do
  let a ← h.deref s
  let b ← h.deref other
  pure (a.Equal b)

/-- Go `s.IsEmpty()` through a pointer. -/
def Heap.IsEmpty (h : Heap T) (s : Ptr) : Option Bool := (h.deref s).map (fun v => v.IsEmpty)

/-- Go `s.ToSlice()` through a pointer. -/
def Heap.ToSlice (h : Heap T) (s : Ptr) : Option (List T) :=
  (h.deref s).map (fun v => v.ToSlice)

/-- Go `s.IsSubset(other)` through pointers. -/
def Heap.IsSubset (h : Heap T) (s other : Ptr) : Option Bool := do
  let a ← h.deref s
  let b ← h.deref other
  pure (a.IsSubset b)

/-- Go `s.IsSuperset(other)` through pointers. -/
def Heap.IsSuperset (h : Heap T) (s other : Ptr) : Option Bool := h.IsSubset other s

/-- Go `s.ForEach(fn)` through a pointer; the visitor updates a caller state `σ`. -/
def Heap.ForEach {σ : Type} (h : Heap T) (s : Ptr) (fn : σ → T → σ) (init : σ) : Option σ :=
  (h.deref s).map (fun v => v.ForEach fn init)

/-- Keys that `for elem := range s.items` is going to visit. -/
def Heap.rangeItems (h : Heap T) (s : Ptr) : Option (List T) :=
  (h.deref s).map (fun v => GoMap.range v.items)

/-- Loop body `if cond { result.Add(elem) }`, `cond` being the evaluated condition. -/
def Heap.addIf (h : Heap T) (cond : Option Bool) (result : Ptr) (elem : T) : Option (Heap T) :=
  match cond with
  | none => none
  | some true => h.Add result elem
  | some false => some h

/-- Go `s.Clone()` on the heap. -/
def Heap.Clone (h : Heap T) (s : Ptr) : Option (Heap T × Ptr) := do
  let (h1, clone) := h.New
  let keys ← h1.rangeItems s
  let h2 ← keys.foldlM (fun hh elem => hh.Add clone elem) h1
  pure (h2, clone)

/-- Go `s.Union(other)` on the heap. -/
def Heap.Union (h : Heap T) (s other : Ptr) : Option (Heap T × Ptr) := do
  let (h1, result) ← h.Clone s
  let keys ← h1.rangeItems other
  let h2 ← keys.foldlM (fun hh elem => hh.Add result elem) h1
  pure (h2, result)

/-- Go `s.Intersection(other)` on the heap. -/
def Heap.Intersection (h : Heap T) (s other : Ptr) : Option (Heap T × Ptr) := do
  let (h1, result) := h.New
  let ls ← h1.Len s
  let lo ← h1.Len other
  let smaller := if lo < ls then other else s
  let larger := if lo < ls then s else other
  let keys ← h1.rangeItems smaller
  let h2 ← keys.foldlM (fun hh elem => hh.addIf (hh.Contains larger elem) result elem) h1
  pure (h2, result)

/-- Go `s.Difference(other)` on the heap. -/
def Heap.Difference (h : Heap T) (s other : Ptr) : Option (Heap T × Ptr) := do
  let (h1, result) := h.New
  let keys ← h1.rangeItems s
  let h2 ← keys.foldlM
    (fun hh elem => hh.addIf ((hh.Contains other elem).map (fun b => !b)) result elem) h1
  pure (h2, result)

/-- Go `s.SymmetricDifference(other)` on the heap. -/
def Heap.SymmetricDifference (h : Heap T) (s other : Ptr) : Option (Heap T × Ptr) := do
  let (h1, result) := h.New
  let keys ← h1.rangeItems s
  let h2 ← keys.foldlM
    (fun hh elem => hh.addIf ((hh.Contains other elem).map (fun b => !b)) result elem) h1
  let keys2 ← h2.rangeItems other
  let h3 ← keys2.foldlM
    (fun hh elem => hh.addIf ((hh.Contains s elem).map (fun b => !b)) result elem) h2
  pure (h3, result)

/-- Go `s.Filter(predicate)` on the heap, for a predicate that is a function of its argument. -/
def Heap.Filter (h : Heap T) (s : Ptr) (predicate : T → Bool) : Option (Heap T × Ptr) := do
  let (h1, result) := h.New
  let keys ← h1.rangeItems s
  let h2 ← keys.foldlM (fun hh elem => hh.addIf (some (predicate elem)) result elem) h1
  pure (h2, result)

/-- Key table after a loop `if c(elem) { result.Add(elem) }` over `l`, started on `ks`. -/
def Keys.addAll (c : T → Bool) (l : List T) (ks : Keys T) : Keys T :=
  l.foldl (fun k e => if c e then Keys.store k e else k) ks

/-- A heap with the sets `{1, 2}` at address 0 and `{2, 3}` at address 1. -/
def Heap.sample : Heap Nat :=
  ⟨[⟨[1, 2], by decide⟩, ⟨[2, 3], by decide⟩], [some 0, some 1]⟩

/-- Specification of a call that returns a new set, made on heap `h`: the call returns a heap
`h'` and an address `r`; `r` holds the value `v`; every set of `h` is at another address than
`r` and has in `h'` the value it had in `h`; and it still has that value after any `Add`,
`Remove` or `Clear` applied to `r`. -/
def Heap.ReturnsFresh (h : Heap T) (res : Option (Heap T × Ptr)) (v : Set T) : Prop :=
  ∃ h' r, res = some (h', r) ∧ h'.deref r = some v ∧
    ∀ p P, h.deref p = some P →
      p ≠ r ∧ h'.deref p = some P ∧
      (∀ y, ∃ h2, h'.Add r y = some h2 ∧ h2.deref p = some P) ∧
      (∀ y, ∃ h2, h'.Remove r y = some h2 ∧ h2.deref p = some P) ∧
      (∃ h2, h'.Clear r = some h2 ∧ h2.deref p = some P)

/-- The set `{1, 2}` held at address 0 of `Heap.sample`. -/
def Heap.sampleA : Set Nat := ⟨some ⟨[1, 2], by decide⟩⟩

/-- The set `{2, 3}` held at address 1 of `Heap.sample`. -/
def Heap.sampleB : Set Nat := ⟨some ⟨[2, 3], by decide⟩⟩

/-- The set `Of(NaN)` of element type `float64`: one stored key, which no lookup finds. -/
def nanSet : Set GoFloat := ⟨some ⟨[GoFloat.NaN], by decide⟩⟩

/-- A heap with the set `Of(NaN)` at address 0. -/
def Heap.sampleNaN : Heap GoFloat := ⟨[⟨[GoFloat.NaN], by decide⟩], [some 0]⟩

/-! ## Basic facts about the map model -/

theorem goEq_iff (a b : T) : goEq a b = true ↔ a = b ∧ Comparable.selfEq a = true := by
  unfold goEq
  rw [Bool.and_eq_true, decide_eq_true_eq]

theorem goEq_self (a : T) : goEq a a = Comparable.selfEq a := by
  unfold goEq
  simp

theorem GoMap.range_pairwise (m : GoMap T) :
    (GoMap.range m).Pairwise (fun a b => goEq a b = false) := by
  cases m with
  | none => exact List.Pairwise.nil
  | some ks => exact ks.property

/-- A lookup finds `k` exactly when `k` is a key of the map and equals itself. -/
theorem GoMap.has_iff (m : GoMap T) (k : T) :
    GoMap.has m k = true ↔ k ∈ GoMap.range m ∧ Comparable.selfEq k = true := by
  unfold GoMap.has
  rw [List.any_eq_true]
  constructor
  · rintro ⟨a, ha, hak⟩
    obtain ⟨rfl, hs⟩ := (goEq_iff a k).mp hak
    exact ⟨ha, hs⟩
  · rintro ⟨hk, hs⟩
    exact ⟨k, hk, (goEq_iff k k).mpr ⟨rfl, hs⟩⟩

theorem Keys.mem_store (ks : Keys T) (k x : T) :
    x ∈ (Keys.store ks k).val ↔ x ∈ ks.val ∨ x = k := by
  unfold Keys.store
  by_cases h : ks.val.any (fun a => goEq a k) = true
  · rw [dif_pos h]
    constructor
    · intro hx; exact Or.inl hx
    · rintro (hx | hx)
      · exact hx
      · obtain ⟨a, ha, hak⟩ := List.any_eq_true.mp h
        rw [hx, ← ((goEq_iff a k).mp hak).1]
        exact ha
  · rw [dif_neg h]
    simp

theorem Set.contains_iff (s : Set T) (x : T) :
    s.Contains x = true ↔ x ∈ GoMap.range s.items ∧ Comparable.selfEq x = true :=
  GoMap.has_iff s.items x

theorem Set.contains_eq_false_of_not_selfEq (s : Set T) (x : T)
    (hx : Comparable.selfEq x = false) : s.Contains x = false := by
  cases h : s.Contains x with
  | false => rfl
  | true =>
    have := ((Set.contains_iff s x).mp h).2
    rw [hx] at this
    exact absurd this (by decide)

theorem Set.selfEqual_iff (s : Set T) :
    s.selfEqual = true ↔ ∀ x ∈ GoMap.range s.items, Comparable.selfEq x = true := by
  unfold Set.selfEqual
  rw [List.all_eq_true]
  constructor
  · intro h x hx
    rw [← goEq_self]
    exact h x hx
  · intro h x hx
    rw [goEq_self]
    exact h x hx

/-- Keys that all equal themselves and of which no two are `==` are pairwise different. -/
theorem nodup_of_pairwise_of_selfEq {l : List T}
    (hp : l.Pairwise (fun a b => goEq a b = false))
    (hs : ∀ x ∈ l, Comparable.selfEq x = true) : l.Nodup := by
  unfold List.Nodup
  refine hp.imp_of_mem ?_
  intro a b ha _ hab heq
  have : goEq a b = true := (goEq_iff a b).mpr ⟨heq, hs a ha⟩
  rw [hab] at this
  exact absurd this (by decide)

theorem Set.range_nodup_of_selfEqual (s : Set T) (hs : s.selfEqual = true) :
    (GoMap.range s.items).Nodup :=
  nodup_of_pairwise_of_selfEq (GoMap.range_pairwise s.items) ((Set.selfEqual_iff s).mp hs)

theorem Set.len_eq_length (s : Set T) : s.Len = ((GoMap.range s.items).length : Int) := rfl

omit [DecidableEq T] [Comparable T] in
/-- Two lists without repetition and with the same members have the same length. -/
theorem length_eq_of_nodup_of_mem_iff {l₁ l₂ : List T} (h₁ : l₁.Nodup) (h₂ : l₂.Nodup)
    (h : ∀ x, x ∈ l₁ ↔ x ∈ l₂) : l₁.length = l₂.length :=
  le_antisymm (List.subperm_of_subset h₁ (fun x hx => (h x).mp hx)).length_le
    (List.subperm_of_subset h₂ (fun x hx => (h x).mpr hx)).length_le

/-! ## Loops that add to a set -/

/-- The value-level loop `if c(elem) { result.Add(elem) }` computes `Keys.addAll`. -/
theorem foldlM_add_eq (c : T → Bool) (step : Set T → T → Option (Set T))
    (hstep : ∀ r e, step r e = if c e = true then r.Add e else some r)
    (l : List T) (ks : Keys T) :
    l.foldlM step ⟨some ks⟩ = some ⟨some (Keys.addAll c l ks)⟩ := by
  induction l generalizing ks with
  | nil => rfl
  | cons e l ih =>
    rw [List.foldlM_cons, hstep]
    by_cases hc : c e = true
    · rw [if_pos hc]
      show l.foldlM step ⟨some (Keys.store ks e)⟩ = _
      rw [ih]
      unfold Keys.addAll
      rw [List.foldl_cons, if_pos hc]
    · rw [if_neg hc]
      show l.foldlM step ⟨some ks⟩ = _
      rw [ih]
      unfold Keys.addAll
      rw [List.foldl_cons, if_neg hc]

theorem Keys.addAll_nil (c : T → Bool) (ks : Keys T) : Keys.addAll c [] ks = ks := rfl

theorem Keys.addAll_cons (c : T → Bool) (e : T) (l : List T) (ks : Keys T) :
    Keys.addAll c (e :: l) ks = Keys.addAll c l (if c e = true then Keys.store ks e else ks) :=
  rfl

/-- Members after the loop: those before, and the visited elements that pass `c`. -/
theorem Keys.mem_addAll (c : T → Bool) (l : List T) (ks : Keys T) (x : T) :
    x ∈ (Keys.addAll c l ks).val ↔ x ∈ ks.val ∨ (x ∈ l ∧ c x = true) := by
  induction l generalizing ks with
  | nil => simp [Keys.addAll_nil]
  | cons e l ih =>
    rw [Keys.addAll_cons, ih, List.mem_cons]
    by_cases hc : c e = true
    · rw [if_pos hc, Keys.mem_store]
      constructor
      · rintro ((h | h) | ⟨h, h2⟩)
        · exact Or.inl h
        · exact Or.inr ⟨Or.inl h, by rw [h]; exact hc⟩
        · exact Or.inr ⟨Or.inr h, h2⟩
      · rintro (h | ⟨h | h, h2⟩)
        · exact Or.inl (Or.inl h)
        · exact Or.inl (Or.inr h)
        · exact Or.inr ⟨h, h2⟩
    · rw [if_neg hc]
      constructor
      · rintro (h | ⟨h, h2⟩)
        · exact Or.inl h
        · exact Or.inr ⟨Or.inr h, h2⟩
      · rintro (h | ⟨h | h, h2⟩)
        · exact Or.inl h
        · rw [h] at h2; exact absurd h2 hc
        · exact Or.inr ⟨h, h2⟩

theorem Keys.store_val (ks : Keys T) (k : T) :
    (Keys.store ks k).val
      = if ks.val.any (fun a => goEq a k) = true then ks.val else ks.val ++ [k] := by
  unfold Keys.store
  by_cases h : ks.val.any (fun a => goEq a k) = true
  · rw [dif_pos h, if_pos h]
  · rw [dif_neg h, if_neg h]

/-- The key list after the loop, when the visited keys are those of a map (no two `==`):
the keys before, then the visited keys that pass `c` and are `==` to no key before. -/
theorem Keys.addAll_val (c : T → Bool) (l : List T) (ks : Keys T)
    (hl : l.Pairwise (fun a b => goEq a b = false)) :
    (Keys.addAll c l ks).val
      = ks.val ++ l.filter (fun e => c e && !(ks.val.any (fun a => goEq a e))) := by
  induction l generalizing ks with
  | nil => simp [Keys.addAll_nil]
  | cons e l ih =>
    rw [List.pairwise_cons] at hl
    rw [Keys.addAll_cons, ih _ hl.2]
    by_cases hc : c e = true
    · rw [if_pos hc, Keys.store_val]
      by_cases hh : ks.val.any (fun a => goEq a e) = true
      · rw [if_pos hh, List.filter_cons_of_neg (by simp [hc, hh])]
      · rw [if_neg hh, List.filter_cons_of_pos (by simp [hc, hh]), List.append_assoc]
        congr 1
        show e :: _ = e :: _
        congr 1
        apply List.filter_congr
        intro x hx
        have hex : goEq e x = false := hl.1 x hx
        simp [List.any_append, hex]
    · rw [if_neg hc, List.filter_cons_of_neg (by simp [hc])]

/-! ## What each derived-set method returns -/

theorem Set.Add_allocated (s : Set T) (x : T) (hs : s.items.isSome = true) :
    ∃ ks : Keys T, s.items = some ks ∧ s.Add x = some ⟨some (Keys.store ks x)⟩ := by
  cases s with
  | mk items =>
    cases items with
    | none => exact absurd hs Bool.false_ne_true
    | some ks => exact ⟨ks, rfl, rfl⟩

theorem Of_eq (xs : List T) :
    Of xs = some ⟨some (Keys.addAll (fun _ => true) xs ⟨[], List.Pairwise.nil⟩)⟩ :=
  foldlM_add_eq (fun _ => true) (fun s elem => Set.Add s elem) (fun _ _ => by simp)
    xs ⟨[], List.Pairwise.nil⟩

theorem Set.Clone_eq (S : Set T) :
    S.Clone = some ⟨some (Keys.addAll (fun _ => true) (GoMap.range S.items)
      ⟨[], List.Pairwise.nil⟩)⟩ :=
  foldlM_add_eq (fun _ => true) (fun clone elem => Set.Add clone elem) (fun _ _ => by simp)
    (GoMap.range S.items) ⟨[], List.Pairwise.nil⟩

theorem Set.Union_eq (S O : Set T) :
    S.Union O = some ⟨some (Keys.addAll (fun _ => true) (GoMap.range O.items)
      (Keys.addAll (fun _ => true) (GoMap.range S.items) ⟨[], List.Pairwise.nil⟩))⟩ := by
  unfold Set.Union
  rw [Set.Clone_eq]
  exact foldlM_add_eq (fun _ => true) (fun result elem => Set.Add result elem)
    (fun _ _ => by simp) (GoMap.range O.items) _

theorem intersectionLoop_eq (S O : Set T) :
    intersectionLoop S O = some ⟨some (Keys.addAll (fun e => O.Contains e)
      (GoMap.range S.items) ⟨[], List.Pairwise.nil⟩)⟩ :=
  foldlM_add_eq (fun e => O.Contains e)
    (fun result elem => if O.Contains elem then Set.Add result elem else some result)
    (fun _ _ => rfl) (GoMap.range S.items) ⟨[], List.Pairwise.nil⟩

theorem Set.Intersection_eq (S O : Set T) :
    S.Intersection O = some ⟨some (if O.Len < S.Len then
        Keys.addAll (fun e => S.Contains e) (GoMap.range O.items) ⟨[], List.Pairwise.nil⟩
      else
        Keys.addAll (fun e => O.Contains e) (GoMap.range S.items) ⟨[], List.Pairwise.nil⟩)⟩ := by
  unfold Set.Intersection
  by_cases hlt : O.Len < S.Len
  · rw [if_pos hlt, if_pos hlt]; exact intersectionLoop_eq O S
  · rw [if_neg hlt, if_neg hlt]; exact intersectionLoop_eq S O

theorem Set.Difference_eq (S O : Set T) :
    S.Difference O = some ⟨some (Keys.addAll (fun e => !O.Contains e)
      (GoMap.range S.items) ⟨[], List.Pairwise.nil⟩)⟩ :=
  foldlM_add_eq (fun e => !O.Contains e)
    (fun result elem => if !O.Contains elem then Set.Add result elem else some result)
    (fun _ _ => rfl) (GoMap.range S.items) ⟨[], List.Pairwise.nil⟩

theorem Set.SymmetricDifference_eq (S O : Set T) :
    S.SymmetricDifference O = some ⟨some (Keys.addAll (fun e => !S.Contains e)
      (GoMap.range O.items) (Keys.addAll (fun e => !O.Contains e)
        (GoMap.range S.items) ⟨[], List.Pairwise.nil⟩))⟩ := by
  have h1 := foldlM_add_eq (fun e => !O.Contains e)
    (fun result elem => if !O.Contains elem then Set.Add result elem else some result)
    (fun _ _ => rfl) (GoMap.range S.items) ⟨[], List.Pairwise.nil⟩
  unfold Set.SymmetricDifference
  show (do
    let result ← (GoMap.range S.items).foldlM
      (fun result elem => if !O.Contains elem then Set.Add result elem else some result)
      ⟨some ⟨[], List.Pairwise.nil⟩⟩
    (GoMap.range O.items).foldlM
      (fun result elem => if !S.Contains elem then Set.Add result elem else some result)
      result) = _
  rw [h1]
  exact foldlM_add_eq (fun e => !S.Contains e)
    (fun result elem => if !S.Contains elem then Set.Add result elem else some result)
    (fun _ _ => rfl) (GoMap.range O.items) _

theorem Set.Filter_eq (S : Set T) (p : T → Bool) :
    S.Filter p = some ⟨some (Keys.addAll p (GoMap.range S.items) ⟨[], List.Pairwise.nil⟩)⟩ :=
  foldlM_add_eq p (fun result elem => if p elem then Set.Add result elem else some result)
    (fun _ _ => rfl) (GoMap.range S.items) ⟨[], List.Pairwise.nil⟩

/-- Key list of a loop started on `New` over the keys of a map: the visited keys passing
`c`, in the order visited. -/
theorem Keys.addAll_new_val (c : T → Bool) (m : GoMap T) :
    (Keys.addAll c (GoMap.range m) ⟨[], List.Pairwise.nil⟩).val
      = (GoMap.range m).filter c := by
  rw [Keys.addAll_val c _ _ (GoMap.range_pairwise m)]
  simp

/-- `Of` stores exactly the values among its arguments. -/
theorem Of_spec (xs : List T) :
    ∃ r : Keys T, Of xs = some ⟨some r⟩ ∧ ∀ x, x ∈ r.val ↔ x ∈ xs :=
  ⟨_, Of_eq xs, fun x => by rw [Keys.mem_addAll]; simp⟩

/-- `Clone` returns a set with the key list of the receiver. -/
theorem Set.Clone_spec (s : Set T) :
    ∃ r : Keys T, s.Clone = some ⟨some r⟩ ∧ r.val = GoMap.range s.items :=
  ⟨_, Set.Clone_eq s, by rw [Keys.addAll_new_val]; simp⟩

/-- `Union` returns the keys of the receiver followed by the keys of `other` that the
receiver does not contain. -/
theorem Set.Union_spec (s other : Set T) :
    ∃ r : Keys T, s.Union other = some ⟨some r⟩ ∧
      r.val = GoMap.range s.items
        ++ (GoMap.range other.items).filter (fun e => !s.Contains e) := by
  refine ⟨_, Set.Union_eq s other, ?_⟩
  obtain ⟨c, hc, hcv⟩ := Set.Clone_spec s
  rw [Set.Clone_eq] at hc
  have hck : Keys.addAll (fun _ => true) (GoMap.range s.items) ⟨[], List.Pairwise.nil⟩ = c := by
    injection hc with hc
    injection hc with hc
    injection hc
  rw [hck, Keys.addAll_val _ _ _ (GoMap.range_pairwise other.items), hcv]
  rfl

theorem intersectionLoop_spec (smaller larger : Set T) :
    ∃ r : Keys T, intersectionLoop smaller larger = some ⟨some r⟩ ∧
      r.val = (GoMap.range smaller.items).filter (fun e => larger.Contains e) :=
  ⟨_, intersectionLoop_eq smaller larger, Keys.addAll_new_val _ _⟩

theorem Set.Difference_spec (s other : Set T) :
    ∃ r : Keys T, s.Difference other = some ⟨some r⟩ ∧
      r.val = (GoMap.range s.items).filter (fun e => !other.Contains e) :=
  ⟨_, Set.Difference_eq s other, Keys.addAll_new_val _ _⟩

theorem Set.Filter_spec (s : Set T) (p : T → Bool) :
    ∃ r : Keys T, s.Filter p = some ⟨some r⟩ ∧ r.val = (GoMap.range s.items).filter p :=
  ⟨_, Set.Filter_eq s p, Keys.addAll_new_val _ _⟩

/-- `SymmetricDifference` returns the keys of the receiver that `other` does not contain,
followed by the keys of `other` that the receiver does not contain. -/
theorem Set.SymmetricDifference_spec (s other : Set T) :
    ∃ r : Keys T, s.SymmetricDifference other = some ⟨some r⟩ ∧
      r.val = (GoMap.range s.items).filter (fun e => !other.Contains e)
        ++ (GoMap.range other.items).filter (fun e => !s.Contains e) := by
  refine ⟨_, Set.SymmetricDifference_eq s other, ?_⟩
  rw [Keys.addAll_val _ _ _ (GoMap.range_pairwise other.items), Keys.addAll_new_val]
  congr 1
  apply List.filter_congr
  intro x _
  cases hsx : s.Contains x with
  | true => simp
  | false =>
    have hany : ((GoMap.range s.items).filter (fun e => !other.Contains e)).any
        (fun a => goEq a x) = false := by
      rw [Bool.eq_false_iff]
      intro h
      obtain ⟨a, ha, hax⟩ := List.any_eq_true.mp h
      obtain ⟨rfl, hs⟩ := (goEq_iff a x).mp hax
      have : s.Contains a = true :=
        (Set.contains_iff s a).mpr ⟨(List.mem_filter.mp ha).1, hs⟩
      rw [hsx] at this
      exact absurd this (by decide)
    simp [hany]

/-! ## What the relational predicates return -/

theorem Set.selfEqual_of_all_contained (s other : Set T)
    (h : ∀ x ∈ GoMap.range s.items, other.Contains x = true) : s.selfEqual = true :=
  (Set.selfEqual_iff s).mpr fun x hx => ((Set.contains_iff other x).mp (h x hx)).2

/-- A set all of whose stored elements another set contains has at most as many elements. -/
theorem Set.len_le_of_all_contained (s other : Set T)
    (h : ∀ x ∈ GoMap.range s.items, other.Contains x = true) : s.Len ≤ other.Len := by
  have hnd := Set.range_nodup_of_selfEqual s (Set.selfEqual_of_all_contained s other h)
  have hsub : GoMap.range s.items ⊆ GoMap.range other.items :=
    fun x hx => ((Set.contains_iff other x).mp (h x hx)).1
  have := (List.subperm_of_subset hnd hsub).length_le
  unfold Set.Len GoMap.len
  exact_mod_cast this

/-- `IsSubset` is true exactly when `other` contains every element stored in the receiver;
the early return on the lengths does not change that. -/
theorem Set.IsSubset_iff (s other : Set T) :
    s.IsSubset other = true ↔ ∀ x ∈ GoMap.range s.items, other.Contains x = true := by
  unfold Set.IsSubset
  by_cases h : s.Len > other.Len
  · rw [if_pos h]
    constructor
    · intro hf; exact absurd hf (by decide)
    · intro hall
      exact absurd (Set.len_le_of_all_contained s other hall) (not_le.mpr h)
  · rw [if_neg h, List.all_eq_true]

theorem Set.Equal_iff_loop (s other : Set T) :
    s.Equal other = true ↔
      s.Len = other.Len ∧ ∀ x ∈ GoMap.range s.items, other.Contains x = true := by
  unfold Set.Equal
  by_cases h : s.Len ≠ other.Len
  · rw [if_pos h]
    constructor
    · intro hf; exact absurd hf (by decide)
    · intro hall; exact absurd hall.1 h
  · rw [if_neg h, List.all_eq_true]
    exact ⟨fun hall => ⟨not_not.mp h, hall⟩, fun hall => hall.2⟩

/-- `Equal` is true exactly when both sets store the same elements and neither stores an
element that differs from itself. -/
theorem Set.Equal_iff (s other : Set T) :
    s.Equal other = true ↔
      s.selfEqual = true ∧ other.selfEqual = true ∧
        ∀ x, x ∈ GoMap.range s.items ↔ x ∈ GoMap.range other.items := by
  rw [Set.Equal_iff_loop]
  constructor
  · rintro ⟨hlen, hall⟩
    have hs := Set.selfEqual_of_all_contained s other hall
    have hnd := Set.range_nodup_of_selfEqual s hs
    have hsub : GoMap.range s.items ⊆ GoMap.range other.items :=
      fun x hx => ((Set.contains_iff other x).mp (hall x hx)).1
    have hlen2 : (GoMap.range s.items).length = (GoMap.range other.items).length := by
      unfold Set.Len GoMap.len at hlen
      exact_mod_cast hlen
    have hperm := (List.subperm_of_subset hnd hsub).perm_of_length_le (le_of_eq hlen2.symm)
    refine ⟨hs, ?_, fun x => hperm.mem_iff⟩
    rw [Set.selfEqual_iff]
    intro x hx
    exact (Set.selfEqual_iff s).mp hs x (hperm.mem_iff.mpr hx)
  · rintro ⟨hs, ho, hmem⟩
    constructor
    · have := length_eq_of_nodup_of_mem_iff (Set.range_nodup_of_selfEqual s hs)
        (Set.range_nodup_of_selfEqual other ho) hmem
      unfold Set.Len GoMap.len
      exact_mod_cast this
    · intro x hx
      exact (Set.contains_iff other x).mpr ⟨(hmem x).mp hx, (Set.selfEqual_iff s).mp hs x hx⟩

theorem Set.contains_iff_mem_of_selfEqual (s : Set T) (hs : s.selfEqual = true) (x : T) :
    s.Contains x = true ↔ x ∈ GoMap.range s.items := by
  rw [Set.contains_iff]
  exact ⟨fun h => h.1, fun h => ⟨h, (Set.selfEqual_iff s).mp hs x h⟩⟩

theorem Set.ToSlice_eq (s : Set T) : s.ToSlice = GoMap.range s.items := by
  have key : ∀ (l init : List T),
      l.foldl (fun result elem => result ++ [elem]) init = init ++ l := by
    intro l
    induction l with
    | nil => intro init; simp
    | cons e l ih => intro init; rw [List.foldl_cons, ih]; simp
  unfold Set.ToSlice
  rw [key]
  rfl

/-! ## Membership and size of the derived sets -/

theorem Set.Intersection_spec (s other : Set T) :
    ∃ r : Keys T, s.Intersection other = some ⟨some r⟩ ∧
      r.val = (if other.Len < s.Len then
          (GoMap.range other.items).filter (fun e => s.Contains e)
        else (GoMap.range s.items).filter (fun e => other.Contains e)) := by
  refine ⟨_, Set.Intersection_eq s other, ?_⟩
  by_cases hlt : other.Len < s.Len
  · rw [if_pos hlt, if_pos hlt]; exact Keys.addAll_new_val _ _
  · rw [if_neg hlt, if_neg hlt]; exact Keys.addAll_new_val _ _

/-- The stored keys of a map that a second set contains are the elements both contain. -/
theorem mem_filter_contains (s other : Set T) (x : T) :
    x ∈ (GoMap.range s.items).filter (fun e => other.Contains e)
      ↔ s.Contains x = true ∧ other.Contains x = true := by
  rw [List.mem_filter, Set.contains_iff s x]
  constructor
  · rintro ⟨hx, ho⟩
    exact ⟨⟨hx, ((Set.contains_iff other x).mp ho).2⟩, ho⟩
  · rintro ⟨⟨hx, _⟩, ho⟩
    exact ⟨hx, ho⟩

theorem filter_contains_nodup (s other : Set T) :
    ((GoMap.range s.items).filter (fun e => other.Contains e)).Nodup := by
  apply nodup_of_pairwise_of_selfEq ((GoMap.range_pairwise s.items).filter _)
  intro x hx
  exact ((Set.contains_iff other x).mp (List.mem_filter.mp hx).2).2

/-- Both ways of running the loop of `Intersection` keep the same number of keys. -/
theorem filter_contains_length_comm (s other : Set T) :
    ((GoMap.range s.items).filter (fun e => other.Contains e)).length
      = ((GoMap.range other.items).filter (fun e => s.Contains e)).length :=
  length_eq_of_nodup_of_mem_iff (filter_contains_nodup s other) (filter_contains_nodup other s)
    (fun x => by rw [mem_filter_contains, mem_filter_contains]; exact And.comm)

theorem Set.mem_Intersection (s other : Set T) (x : T) :
    x ∈ (if other.Len < s.Len then
          (GoMap.range other.items).filter (fun e => s.Contains e)
        else (GoMap.range s.items).filter (fun e => other.Contains e))
      ↔ s.Contains x = true ∧ other.Contains x = true := by
  by_cases hlt : other.Len < s.Len
  · rw [if_pos hlt, mem_filter_contains]; exact And.comm
  · rw [if_neg hlt, mem_filter_contains]

/-- What `Contains` answers on an allocated set whose stored elements are known. -/
theorem contains_mk_iff (ks : Keys T) (x : T) :
    (Set.mk (some ks)).Contains x = true ↔ x ∈ ks.val ∧ Comparable.selfEq x = true :=
  Set.contains_iff ⟨some ks⟩ x

theorem Set.contains_Union (s other : Set T) :
    ∃ r : Set T, s.Union other = some r ∧
      ∀ x, r.Contains x = true ↔ s.Contains x = true ∨ other.Contains x = true := by
  obtain ⟨r, hr, hv⟩ := Set.Union_spec s other
  refine ⟨_, hr, ?_⟩
  intro x
  rw [contains_mk_iff, hv, List.mem_append, List.mem_filter, Set.contains_iff s x,
    Set.contains_iff other x]
  constructor
  · rintro ⟨h | ⟨h, _⟩, hs⟩
    · exact Or.inl ⟨h, hs⟩
    · exact Or.inr ⟨h, hs⟩
  · rintro (⟨h, hs⟩ | ⟨h, hs⟩)
    · exact ⟨Or.inl h, hs⟩
    · refine ⟨?_, hs⟩
      cases hc : s.Contains x with
      | true => exact Or.inl ((Set.contains_iff s x).mp hc).1
      | false => exact Or.inr ⟨h, by simp⟩

theorem Set.contains_Intersection (s other : Set T) :
    ∃ r : Set T, s.Intersection other = some r ∧
      (∀ x, x ∈ GoMap.range r.items ↔ s.Contains x = true ∧ other.Contains x = true) ∧
      (∀ x, r.Contains x = true ↔ s.Contains x = true ∧ other.Contains x = true) ∧
      r.selfEqual = true := by
  obtain ⟨r, hr, hv⟩ := Set.Intersection_spec s other
  have hmem : ∀ x, x ∈ r.val ↔ s.Contains x = true ∧ other.Contains x = true := by
    intro x
    rw [hv]
    exact Set.mem_Intersection s other x
  refine ⟨_, hr, hmem, ?_, ?_⟩
  · intro x
    rw [contains_mk_iff, hmem]
    exact ⟨fun h => h.1, fun h => ⟨h, ((Set.contains_iff s x).mp h.1).2⟩⟩
  · rw [Set.selfEqual_iff]
    intro x hx
    exact ((Set.contains_iff s x).mp ((hmem x).mp hx).1).2

theorem Set.contains_Difference (s other : Set T) :
    ∃ r : Set T, s.Difference other = some r ∧
      (∀ x, x ∈ GoMap.range r.items ↔ x ∈ GoMap.range s.items ∧ other.Contains x = false) ∧
      ∀ x, r.Contains x = true ↔ s.Contains x = true ∧ ¬ other.Contains x = true := by
  obtain ⟨r, hr, hv⟩ := Set.Difference_spec s other
  have hmem : ∀ x, x ∈ r.val ↔ x ∈ GoMap.range s.items ∧ other.Contains x = false := by
    intro x
    rw [hv, List.mem_filter]
    simp
  refine ⟨_, hr, hmem, ?_⟩
  intro x
  rw [contains_mk_iff, hmem, Set.contains_iff s x, Bool.not_eq_true]
  exact ⟨fun h => ⟨⟨h.1.1, h.2⟩, h.1.2⟩, fun h => ⟨⟨h.1.1, h.2⟩, h.1.2⟩⟩

theorem Set.contains_SymmetricDifference (s other : Set T) :
    ∃ r : Set T, s.SymmetricDifference other = some r ∧
      (∀ x, x ∈ GoMap.range r.items ↔
        (x ∈ GoMap.range s.items ∧ other.Contains x = false) ∨
        (x ∈ GoMap.range other.items ∧ s.Contains x = false)) ∧
      ∀ x, r.Contains x = true ↔ s.Contains x ≠ other.Contains x := by
  obtain ⟨r, hr, hv⟩ := Set.SymmetricDifference_spec s other
  have hmem : ∀ x, x ∈ r.val ↔
      (x ∈ GoMap.range s.items ∧ other.Contains x = false) ∨
      (x ∈ GoMap.range other.items ∧ s.Contains x = false) := by
    intro x
    rw [hv, List.mem_append, List.mem_filter, List.mem_filter]
    simp
  refine ⟨_, hr, hmem, ?_⟩
  intro x
  rw [contains_mk_iff, hmem]
  have hs := Set.contains_iff s x
  have ho := Set.contains_iff other x
  cases hcs : s.Contains x with
  | false =>
    cases hco : other.Contains x with
    | false =>
      rw [hcs] at hs
      rw [hco] at ho
      constructor
      · rintro ⟨h | h, hx⟩
        · exact absurd (hs.mpr ⟨h.1, hx⟩) (by decide)
        · exact absurd (ho.mpr ⟨h.1, hx⟩) (by decide)
      · intro h; exact absurd rfl h
    | true =>
      have ho2 := ho.mp hco
      exact ⟨fun _ => by decide, fun _ => ⟨Or.inr ⟨ho2.1, rfl⟩, ho2.2⟩⟩
  | true =>
    have hs2 := hs.mp hcs
    cases hco : other.Contains x with
    | false => exact ⟨fun _ => by decide, fun _ => ⟨Or.inl ⟨hs2.1, rfl⟩, hs2.2⟩⟩
    | true =>
      constructor
      · rintro ⟨h | h, _⟩
        · exact absurd h.2 (by decide)
        · exact absurd h.2 (by decide)
      · intro h; exact absurd rfl h

theorem Set.contains_Filter (s : Set T) (p : T → Bool) :
    ∃ r : Set T, s.Filter p = some r ∧
      (∀ x, x ∈ GoMap.range r.items ↔ x ∈ GoMap.range s.items ∧ p x = true) ∧
      ∀ x, r.Contains x = true ↔ s.Contains x = true ∧ p x = true := by
  obtain ⟨r, hr, hv⟩ := Set.Filter_spec s p
  have hmem : ∀ x, x ∈ r.val ↔ x ∈ GoMap.range s.items ∧ p x = true := by
    intro x
    rw [hv, List.mem_filter]
  refine ⟨_, hr, hmem, ?_⟩
  intro x
  rw [contains_mk_iff, hmem, Set.contains_iff s x]
  exact ⟨fun h => ⟨⟨h.1.1, h.2⟩, h.1.2⟩, fun h => ⟨⟨h.1.1, h.2⟩, h.1.2⟩⟩

/-- A table holds at most one key `==` to `x`: exactly one when `x` is found. -/
theorem Keys.length_filter_goEq (ks : Keys T) (x : T)
    (hx : x ∈ ks.val) (hs : Comparable.selfEq x = true) :
    (ks.val.filter (fun a => goEq a x)).length = 1 := by
  have hp : (ks.val.filter (fun a => goEq a x)).Pairwise (fun a b => goEq a b = false) :=
    ks.property.filter _
  have hall : ∀ a ∈ ks.val.filter (fun a => goEq a x), a = x :=
    fun a ha => ((goEq_iff a x).mp (List.mem_filter.mp ha).2).1
  have hmem : x ∈ ks.val.filter (fun a => goEq a x) :=
    List.mem_filter.mpr ⟨hx, (goEq_iff x x).mpr ⟨rfl, hs⟩⟩
  match hl : ks.val.filter (fun a => goEq a x), hp, hall, hmem with
  | [], _, _, hmem => exact absurd hmem (List.not_mem_nil x)
  | [_], _, _, _ => rfl
  | a :: b :: _, hp, hall, _ =>
    have ha : a = x := hall a (List.mem_cons_self _ _)
    have hb : b = x := hall b (List.mem_cons_of_mem _ (List.mem_cons_self _ _))
    have hab : goEq a b = false := (List.pairwise_cons.mp hp).1 b (List.mem_cons_self _ _)
    have : goEq a b = true := (goEq_iff a b).mpr ⟨ha.trans hb.symm, by rw [ha]; exact hs⟩
    rw [hab] at this
    exact absurd this (by decide)

/-! ## Frame lemmas for the heap -/

/-- Replacing the map object at `a` is invisible through a struct that does not refer to `a`. -/
theorem Heap.deref_withMap_of_ne (h : Heap T) (a : Nat) (ks : Keys T) (p : Ptr)
    (hp : h.sets[p]? ≠ some (some a)) : (h.withMap a ks).deref p = h.deref p := by
  unfold Heap.deref Heap.withMap
  cases hsp : h.sets[p]? with
  | none => simp only [hsp]
  | some fld =>
    cases fld with
    | none => simp only [hsp]
    | some b =>
      have hne : a ≠ b := by
        intro hab
        apply hp
        rw [hsp, hab]
      simp only [hsp, List.getElem?_set_ne hne]

theorem Heap.deref_withMap_self (h : Heap T) (a : Nat) (ks : Keys T) (r : Ptr)
    (hr : h.sets[r]? = some (some a)) (ha : a < h.maps.length) :
    (h.withMap a ks).deref r = some ⟨some ks⟩ := by
  unfold Heap.deref Heap.withMap
  simp only [hr, List.getElem?_set_self ha, Option.map_some']

theorem Heap.withMap_withMap (h : Heap T) (a : Nat) (ks ks' : Keys T) :
    (h.withMap a ks).withMap a ks' = h.withMap a ks' := by
  unfold Heap.withMap
  simp only [List.set_set]

theorem Heap.Add_withMap (h : Heap T) (a : Nat) (ks : Keys T) (r : Ptr) (e : T)
    (hr : h.sets[r]? = some (some a)) (ha : a < h.maps.length) :
    (h.withMap a ks).Add r e = some (h.withMap a (Keys.store ks e)) := by
  have h1 : (h.withMap a ks).sets[r]? = some (some a) := hr
  have h2 : (h.withMap a ks).maps[a]? = some ks := List.getElem?_set_self ha
  unfold Heap.Add
  simp only [h1, h2, Heap.withMap_withMap]

theorem Heap.Remove_withMap (h : Heap T) (a : Nat) (ks : Keys T) (r : Ptr) (e : T)
    (hr : h.sets[r]? = some (some a)) (ha : a < h.maps.length) :
    (h.withMap a ks).Remove r e
      = some (h.withMap a (Keys.remove ks e)) := by
  have h1 : (h.withMap a ks).sets[r]? = some (some a) := hr
  have h2 : (h.withMap a ks).maps[a]? = some ks := List.getElem?_set_self ha
  unfold Heap.Remove
  simp only [h1, h2, Heap.withMap_withMap]

/-- A struct that can be dereferenced lies inside the heap and refers to no address beyond the
allocated map objects. -/
theorem Heap.bounds_of_deref (h : Heap T) (p : Ptr) (P : Set T) (hp : h.deref p = some P) :
    p < h.sets.length ∧ h.sets[p]? ≠ some (some h.maps.length) := by
  have hlt : p < h.sets.length := by
    by_contra hge
    unfold Heap.deref at hp
    rw [List.getElem?_eq_none (not_lt.mp hge)] at hp
    exact absurd hp (by simp)
  refine ⟨hlt, ?_⟩
  intro heq
  unfold Heap.deref at hp
  rw [heq] at hp
  simp only [List.getElem?_eq_none (le_refl h.maps.length)] at hp
  exact absurd hp (by simp)

/-- Allocation by `New` is invisible through every struct that existed before. -/
theorem Heap.deref_New (h : Heap T) (p : Ptr) (P : Set T) (hp : h.deref p = some P) :
    (h.New).1.deref p = some P := by
  have hb := Heap.bounds_of_deref h p P hp
  unfold Heap.deref at hp ⊢
  unfold Heap.New
  simp only [List.getElem?_append_left hb.1]
  cases hsp : h.sets[p]? with
  | none => rw [hsp] at hp; exact absurd hp (by simp)
  | some fld =>
    cases fld with
    | none => rw [hsp] at hp; simpa using hp
    | some b =>
      rw [hsp] at hp
      simp only at hp ⊢
      have hlt : b < h.maps.length := by
        by_contra hge
        rw [List.getElem?_eq_none (not_lt.mp hge)] at hp
        exact absurd hp (by simp)
      rw [List.getElem?_append_left hlt]
      exact hp

theorem Heap.New_sets_fresh (h : Heap T) :
    (h.New).1.sets[h.sets.length]? = some (some h.maps.length) ∧
      h.maps.length < (h.New).1.maps.length := by
  unfold Heap.New
  simp

theorem Heap.New_eq_withMap (h : Heap T) :
    (h.New).1 = (h.New).1.withMap h.maps.length ⟨[], List.Pairwise.nil⟩ := by
  unfold Heap.New Heap.withMap
  simp

/-- A struct that existed before `New` does not refer to the map object `New` allocates. -/
theorem Heap.New_sets_old (h : Heap T) (p : Ptr) (P : Set T) (hp : h.deref p = some P) :
    (h.New).1.sets[p]? ≠ some (some h.maps.length) := by
  have hb := Heap.bounds_of_deref h p P hp
  have : (h.New).1.sets[p]? = h.sets[p]? := by
    unfold Heap.New
    simp only [List.getElem?_append_left hb.1]
  rw [this]
  exact hb.2

/-! ## Loops, by value and on the heap -/

/-- A heap loop each of whose steps replaces the map object at `a` as the value-level loop
does ends on the heap with `Keys.addAll` at `a`. -/
theorem Heap.foldlM_withMap (h : Heap T) (a : Nat) (c : T → Bool)
    (step : Heap T → T → Option (Heap T))
    (hstep : ∀ ks e, step (h.withMap a ks) e
      = some (h.withMap a (if c e = true then Keys.store ks e else ks)))
    (l : List T) (ks : Keys T) :
    l.foldlM step (h.withMap a ks) = some (h.withMap a (Keys.addAll c l ks)) := by
  induction l generalizing ks with
  | nil => rfl
  | cons e l ih =>
    rw [List.foldlM_cons, hstep]
    show l.foldlM step (h.withMap a (if c e = true then Keys.store ks e else ks)) = _
    rw [ih]
    rfl

theorem Heap.addIf_withMap (h : Heap T) (a : Nat) (ks : Keys T) (r : Ptr) (e : T) (b : Bool)
    (hr : h.sets[r]? = some (some a)) (ha : a < h.maps.length) :
    (h.withMap a ks).addIf (some b) r e
      = some (h.withMap a (if b = true then Keys.store ks e else ks)) := by
  cases b with
  | true => exact Heap.Add_withMap h a ks r e hr ha
  | false => rfl

theorem Heap.Contains_withMap (h : Heap T) (a : Nat) (ks : Keys T) (q : Ptr) (Q : Set T)
    (e : T) (hq : h.deref q = some Q) (hne : h.sets[q]? ≠ some (some a)) :
    (h.withMap a ks).Contains q e = some (Q.Contains e) := by
  unfold Heap.Contains
  rw [Heap.deref_withMap_of_ne h a ks q hne, hq]
  rfl

theorem Heap.rangeItems_withMap (h : Heap T) (a : Nat) (ks : Keys T) (q : Ptr) (Q : Set T)
    (hq : h.deref q = some Q) (hne : h.sets[q]? ≠ some (some a)) :
    (h.withMap a ks).rangeItems q = some (GoMap.range Q.items) := by
  unfold Heap.rangeItems
  rw [Heap.deref_withMap_of_ne h a ks q hne, hq]
  rfl

/-- The loop `if c(elem) { result.Add(elem) }` run on the heap right after `New` allocated
`result`, the condition reading a set `q` that existed before. -/
theorem Heap.loop_after_New (h : Heap T) (q : Ptr) (Q : Set T) (hq : h.deref q = some Q)
    (f : Bool → Bool) (l : List T) (ks : Keys T) :
    l.foldlM (fun hh elem => hh.addIf ((hh.Contains q elem).map f) h.sets.length elem)
        ((h.New).1.withMap h.maps.length ks)
      = some ((h.New).1.withMap h.maps.length
          (Keys.addAll (fun e => f (Q.Contains e)) l ks)) := by
  apply Heap.foldlM_withMap
  intro ks' e
  show ((h.New).1.withMap h.maps.length ks').addIf
    ((((h.New).1.withMap h.maps.length ks').Contains q e).map f) h.sets.length e = _
  rw [Heap.Contains_withMap _ _ _ q Q e (Heap.deref_New h q Q hq) (Heap.New_sets_old h q Q hq)]
  exact Heap.addIf_withMap _ _ _ _ _ _ (Heap.New_sets_fresh h).1 (Heap.New_sets_fresh h).2

/-- The loop `result.Add(elem)` run on the heap right after `New` allocated `result`. -/
theorem Heap.addLoop_after_New (h : Heap T) (l : List T) (ks : Keys T) :
    l.foldlM (fun hh elem => hh.Add h.sets.length elem) ((h.New).1.withMap h.maps.length ks)
      = some ((h.New).1.withMap h.maps.length (Keys.addAll (fun _ => true) l ks)) := by
  apply Heap.foldlM_withMap
  intro ks' e
  show ((h.New).1.withMap h.maps.length ks').Add h.sets.length e = _
  rw [Heap.Add_withMap _ _ _ _ _ (Heap.New_sets_fresh h).1 (Heap.New_sets_fresh h).2]
  rfl

/-- The loop `if p(elem) { result.Add(elem) }` of `Filter` on the heap right after `New`. -/
theorem Heap.filterLoop_after_New (h : Heap T) (p : T → Bool) (l : List T) (ks : Keys T) :
    l.foldlM (fun hh elem => hh.addIf (some (p elem)) h.sets.length elem)
        ((h.New).1.withMap h.maps.length ks)
      = some ((h.New).1.withMap h.maps.length (Keys.addAll p l ks)) := by
  apply Heap.foldlM_withMap
  intro ks' e
  exact Heap.addIf_withMap _ _ _ _ _ _ (Heap.New_sets_fresh h).1 (Heap.New_sets_fresh h).2

/-- The loop `if larger.Contains(elem) { result.Add(elem) }` of `Intersection` on the heap
right after `New`, `larger` being a set that existed before. -/
theorem Heap.containsLoop_after_New (h : Heap T) (q : Ptr) (Q : Set T)
    (hq : h.deref q = some Q) (l : List T) (ks : Keys T) :
    l.foldlM (fun hh elem => hh.addIf (hh.Contains q elem) h.sets.length elem)
        ((h.New).1.withMap h.maps.length ks)
      = some ((h.New).1.withMap h.maps.length (Keys.addAll (fun e => Q.Contains e) l ks)) := by
  apply Heap.foldlM_withMap
  intro ks' e
  show ((h.New).1.withMap h.maps.length ks').addIf
    (((h.New).1.withMap h.maps.length ks').Contains q e) h.sets.length e = _
  rw [Heap.Contains_withMap _ _ _ q Q e (Heap.deref_New h q Q hq) (Heap.New_sets_old h q Q hq)]
  exact Heap.addIf_withMap _ _ _ _ _ _ (Heap.New_sets_fresh h).1 (Heap.New_sets_fresh h).2

theorem Heap.Len_New (h : Heap T) (q : Ptr) (Q : Set T) (hq : h.deref q = some Q) :
    (h.New).1.Len q = some Q.Len := by
  unfold Heap.Len
  rw [Heap.deref_New h q Q hq]
  rfl

/-! ## What the heap methods return -/

theorem Heap.rangeItems_New (h : Heap T) (q : Ptr) (Q : Set T) (hq : h.deref q = some Q) :
    (h.New).1.rangeItems q = some (GoMap.range Q.items) := by
  unfold Heap.rangeItems
  rw [Heap.deref_New h q Q hq]
  rfl

theorem Heap.Clone_returns (h : Heap T) (s : Ptr) (S : Set T) (hs : h.deref s = some S) :
    h.Clone s = some ((h.New).1.withMap h.maps.length
      (Keys.addAll (fun _ => true) (GoMap.range S.items) ⟨[], List.Pairwise.nil⟩), h.sets.length) := by
  have hloop := Heap.addLoop_after_New h (GoMap.range S.items) ⟨[], List.Pairwise.nil⟩
  rw [← Heap.New_eq_withMap] at hloop
  have hrange := Heap.rangeItems_New h s S hs
  unfold Heap.Clone
  show (do
    let keys ← (h.New).1.rangeItems s
    let h2 ← keys.foldlM (fun (hh : Heap T) elem => hh.Add h.sets.length elem) (h.New).1
    pure (h2, h.sets.length)) = _
  rw [hrange]
  show (do
    let h2 ← (GoMap.range S.items).foldlM (fun (hh : Heap T) elem => hh.Add h.sets.length elem) (h.New).1
    pure (h2, h.sets.length)) = _
  rw [hloop]
  rfl

/-- `Clear` on `r` is invisible through every other struct. -/
theorem Heap.Clear_frame (h : Heap T) (r p : Ptr) (P : Set T) (hr : r < h.sets.length)
    (hne : p ≠ r) (hp : h.deref p = some P) :
    ∃ h2, h.Clear r = some h2 ∧ h2.deref p = some P := by
  unfold Heap.Clear
  rw [if_pos hr]
  refine ⟨_, rfl, ?_⟩
  unfold Heap.deref at hp ⊢
  simp only [List.getElem?_set_ne (Ne.symm hne)]
  cases hsp : h.sets[p]? with
  | none => rw [hsp] at hp; exact absurd hp (by simp)
  | some fld =>
    cases fld with
    | none => rw [hsp] at hp; simpa using hp
    | some b =>
      rw [hsp] at hp
      simp only at hp ⊢
      have hlt : b < h.maps.length := by
        by_contra hge
        rw [List.getElem?_eq_none (not_lt.mp hge)] at hp
        exact absurd hp (by simp)
      rw [List.getElem?_append_left hlt]
      exact hp

/-- A call that returns the heap `New` makes, with some key table in the new map object, and
the address of the new struct, meets `Heap.ReturnsFresh`. -/
theorem Heap.returnsFresh_of_eq (h : Heap T) (res : Option (Heap T × Ptr)) (ks : Keys T)
    (hres : res = some ((h.New).1.withMap h.maps.length ks, h.sets.length)) :
    h.ReturnsFresh res ⟨some ks⟩ := by
  have hfresh := Heap.New_sets_fresh h
  have hold : ∀ (ks' : Keys T) (p : Ptr) (P : Set T), h.deref p = some P →
      ((h.New).1.withMap h.maps.length ks').deref p = some P := by
    intro ks' p P hp
    rw [Heap.deref_withMap_of_ne _ _ _ _ (Heap.New_sets_old h p P hp)]
    exact Heap.deref_New h p P hp
  refine ⟨_, _, hres, Heap.deref_withMap_self _ _ _ _ hfresh.1 hfresh.2, ?_⟩
  intro p P hp
  have hb := Heap.bounds_of_deref h p P hp
  have hne : p ≠ h.sets.length := Nat.ne_of_lt hb.1
  refine ⟨hne, hold ks p P hp, ?_, ?_, ?_⟩
  · intro y
    exact ⟨_, Heap.Add_withMap _ _ _ _ y hfresh.1 hfresh.2, hold _ p P hp⟩
  · intro y
    exact ⟨_, Heap.Remove_withMap _ _ _ _ y hfresh.1 hfresh.2, hold _ p P hp⟩
  · apply Heap.Clear_frame _ _ _ _ _ hne (hold ks p P hp)
    show h.sets.length < ((h.New).1.withMap h.maps.length ks).sets.length
    unfold Heap.withMap Heap.New
    simp

theorem Heap.Filter_returns (h : Heap T) (s : Ptr) (S : Set T) (p : T → Bool)
    (hs : h.deref s = some S) :
    h.Filter s p = some ((h.New).1.withMap h.maps.length
      (Keys.addAll p (GoMap.range S.items) ⟨[], List.Pairwise.nil⟩), h.sets.length) := by
  have hloop := Heap.filterLoop_after_New h p (GoMap.range S.items) ⟨[], List.Pairwise.nil⟩
  rw [← Heap.New_eq_withMap] at hloop
  have hrange := Heap.rangeItems_New h s S hs
  unfold Heap.Filter
  show (do
    let keys ← (h.New).1.rangeItems s
    let h2 ← keys.foldlM
      (fun (hh : Heap T) elem => hh.addIf (some (p elem)) h.sets.length elem) (h.New).1
    pure (h2, h.sets.length)) = _
  rw [hrange]
  show (do
    let h2 ← (GoMap.range S.items).foldlM
      (fun (hh : Heap T) elem => hh.addIf (some (p elem)) h.sets.length elem) (h.New).1
    pure (h2, h.sets.length)) = _
  rw [hloop]
  rfl

theorem Heap.Difference_returns (h : Heap T) (s other : Ptr) (S O : Set T)
    (hs : h.deref s = some S) (ho : h.deref other = some O) :
    h.Difference s other = some ((h.New).1.withMap h.maps.length
      (Keys.addAll (fun e => !O.Contains e) (GoMap.range S.items) ⟨[], List.Pairwise.nil⟩),
      h.sets.length) := by
  have hloop := Heap.loop_after_New h other O ho (fun b => !b) (GoMap.range S.items)
    ⟨[], List.Pairwise.nil⟩
  rw [← Heap.New_eq_withMap] at hloop
  have hrange := Heap.rangeItems_New h s S hs
  unfold Heap.Difference
  show (do
    let keys ← (h.New).1.rangeItems s
    let h2 ← keys.foldlM (fun (hh : Heap T) elem =>
      hh.addIf ((hh.Contains other elem).map (fun b => !b)) h.sets.length elem) (h.New).1
    pure (h2, h.sets.length)) = _
  rw [hrange]
  show (do
    let h2 ← (GoMap.range S.items).foldlM (fun (hh : Heap T) elem =>
      hh.addIf ((hh.Contains other elem).map (fun b => !b)) h.sets.length elem) (h.New).1
    pure (h2, h.sets.length)) = _
  rw [hloop]
  rfl

theorem Heap.SymmetricDifference_returns (h : Heap T) (s other : Ptr) (S O : Set T)
    (hs : h.deref s = some S) (ho : h.deref other = some O) :
    h.SymmetricDifference s other = some ((h.New).1.withMap h.maps.length
      (Keys.addAll (fun e => !S.Contains e) (GoMap.range O.items)
        (Keys.addAll (fun e => !O.Contains e) (GoMap.range S.items) ⟨[], List.Pairwise.nil⟩)),
      h.sets.length) := by
  have hloop1 := Heap.loop_after_New h other O ho (fun b => !b) (GoMap.range S.items)
    ⟨[], List.Pairwise.nil⟩
  rw [← Heap.New_eq_withMap] at hloop1
  have hloop2 := Heap.loop_after_New h s S hs (fun b => !b) (GoMap.range O.items)
    (Keys.addAll (fun e => !O.Contains e) (GoMap.range S.items) ⟨[], List.Pairwise.nil⟩)
  have hrange1 := Heap.rangeItems_New h s S hs
  have hrange2 := Heap.rangeItems_withMap (h.New).1 h.maps.length
    (Keys.addAll (fun e => !O.Contains e) (GoMap.range S.items) ⟨[], List.Pairwise.nil⟩)
    other O (Heap.deref_New h other O ho) (Heap.New_sets_old h other O ho)
  unfold Heap.SymmetricDifference
  show (do
    let keys ← (h.New).1.rangeItems s
    let h2 ← keys.foldlM (fun (hh : Heap T) elem =>
      hh.addIf ((hh.Contains other elem).map (fun b => !b)) h.sets.length elem) (h.New).1
    let keys2 ← h2.rangeItems other
    let h3 ← keys2.foldlM (fun (hh : Heap T) elem =>
      hh.addIf ((hh.Contains s elem).map (fun b => !b)) h.sets.length elem) h2
    pure (h3, h.sets.length)) = _
  rw [hrange1]
  show (do
    let h2 ← (GoMap.range S.items).foldlM (fun (hh : Heap T) elem =>
      hh.addIf ((hh.Contains other elem).map (fun b => !b)) h.sets.length elem) (h.New).1
    let keys2 ← h2.rangeItems other
    let h3 ← keys2.foldlM (fun (hh : Heap T) elem =>
      hh.addIf ((hh.Contains s elem).map (fun b => !b)) h.sets.length elem) h2
    pure (h3, h.sets.length)) = _
  rw [hloop1]
  show (do
    let keys2 ← ((h.New).1.withMap h.maps.length
      (Keys.addAll (fun e => !O.Contains e) (GoMap.range S.items)
        ⟨[], List.Pairwise.nil⟩)).rangeItems other
    let h3 ← keys2.foldlM (fun (hh : Heap T) elem =>
      hh.addIf ((hh.Contains s elem).map (fun b => !b)) h.sets.length elem)
      ((h.New).1.withMap h.maps.length
        (Keys.addAll (fun e => !O.Contains e) (GoMap.range S.items) ⟨[], List.Pairwise.nil⟩))
    pure (h3, h.sets.length)) = _
  rw [hrange2]
  show (do
    let h3 ← (GoMap.range O.items).foldlM (fun (hh : Heap T) elem =>
      hh.addIf ((hh.Contains s elem).map (fun b => !b)) h.sets.length elem)
      ((h.New).1.withMap h.maps.length
        (Keys.addAll (fun e => !O.Contains e) (GoMap.range S.items) ⟨[], List.Pairwise.nil⟩))
    pure (h3, h.sets.length)) = _
  rw [hloop2]
  rfl

theorem Heap.Union_returns (h : Heap T) (s other : Ptr) (S O : Set T)
    (hs : h.deref s = some S) (ho : h.deref other = some O) :
    h.Union s other = some ((h.New).1.withMap h.maps.length
      (Keys.addAll (fun _ => true) (GoMap.range O.items)
        (Keys.addAll (fun _ => true) (GoMap.range S.items) ⟨[], List.Pairwise.nil⟩)),
      h.sets.length) := by
  have hloop := Heap.addLoop_after_New h (GoMap.range O.items)
    (Keys.addAll (fun _ => true) (GoMap.range S.items) ⟨[], List.Pairwise.nil⟩)
  have hrange := Heap.rangeItems_withMap (h.New).1 h.maps.length
    (Keys.addAll (fun _ => true) (GoMap.range S.items) ⟨[], List.Pairwise.nil⟩)
    other O (Heap.deref_New h other O ho) (Heap.New_sets_old h other O ho)
  unfold Heap.Union
  rw [Heap.Clone_returns h s S hs]
  show (do
    let keys ← ((h.New).1.withMap h.maps.length
      (Keys.addAll (fun _ => true) (GoMap.range S.items)
        ⟨[], List.Pairwise.nil⟩)).rangeItems other
    let h2 ← keys.foldlM (fun (hh : Heap T) elem => hh.Add h.sets.length elem)
      ((h.New).1.withMap h.maps.length
        (Keys.addAll (fun _ => true) (GoMap.range S.items) ⟨[], List.Pairwise.nil⟩))
    pure (h2, h.sets.length)) = _
  rw [hrange]
  show (do
    let h2 ← (GoMap.range O.items).foldlM (fun (hh : Heap T) elem => hh.Add h.sets.length elem)
      ((h.New).1.withMap h.maps.length
        (Keys.addAll (fun _ => true) (GoMap.range S.items) ⟨[], List.Pairwise.nil⟩))
    pure (h2, h.sets.length)) = _
  rw [hloop]
  rfl

theorem Heap.Intersection_returns (h : Heap T) (s other : Ptr) (S O : Set T)
    (hs : h.deref s = some S) (ho : h.deref other = some O) :
    h.Intersection s other = some ((h.New).1.withMap h.maps.length
      (if O.Len < S.Len then
        Keys.addAll (fun e => S.Contains e) (GoMap.range O.items) ⟨[], List.Pairwise.nil⟩
      else
        Keys.addAll (fun e => O.Contains e) (GoMap.range S.items) ⟨[], List.Pairwise.nil⟩),
      h.sets.length) := by
  have hloopS := Heap.containsLoop_after_New h other O ho (GoMap.range S.items)
    ⟨[], List.Pairwise.nil⟩
  have hloopO := Heap.containsLoop_after_New h s S hs (GoMap.range O.items)
    ⟨[], List.Pairwise.nil⟩
  rw [← Heap.New_eq_withMap] at hloopS hloopO
  have hrangeS := Heap.rangeItems_New h s S hs
  have hrangeO := Heap.rangeItems_New h other O ho
  unfold Heap.Intersection
  show (do
    let ls ← (h.New).1.Len s
    let lo ← (h.New).1.Len other
    let keys ← (h.New).1.rangeItems (if lo < ls then other else s)
    let h2 ← keys.foldlM (fun (hh : Heap T) elem =>
      hh.addIf (hh.Contains (if lo < ls then s else other) elem) h.sets.length elem) (h.New).1
    pure (h2, h.sets.length)) = _
  rw [Heap.Len_New h s S hs, Heap.Len_New h other O ho]
  show (do
    let keys ← (h.New).1.rangeItems (if O.Len < S.Len then other else s)
    let h2 ← keys.foldlM (fun (hh : Heap T) elem =>
      hh.addIf (hh.Contains (if O.Len < S.Len then s else other) elem) h.sets.length elem)
      (h.New).1
    pure (h2, h.sets.length)) = _
  by_cases hlt : O.Len < S.Len
  · simp only [if_pos hlt]
    rw [hrangeO]
    show (do
      let h2 ← (GoMap.range O.items).foldlM (fun (hh : Heap T) elem =>
        hh.addIf (hh.Contains s elem) h.sets.length elem) (h.New).1
      pure (h2, h.sets.length)) = _
    rw [hloopO]
    rfl
  · simp only [if_neg hlt]
    rw [hrangeS]
    show (do
      let h2 ← (GoMap.range S.items).foldlM (fun (hh : Heap T) elem =>
        hh.addIf (hh.Contains other elem) h.sets.length elem) (h.New).1
      pure (h2, h.sets.length)) = _
    rw [hloopS]
    rfl

/-- Through a valid pointer, `Add` returns exactly when the map of the set is allocated. -/
theorem Heap.Add_isSome (h : Heap T) (s : Ptr) (S : Set T) (x : T)
    (hs : h.deref s = some S) : (h.Add s x).isSome = S.items.isSome := by
  unfold Heap.deref at hs
  unfold Heap.Add
  cases hsp : h.sets[s]? with
  | none => rw [hsp] at hs; exact absurd hs (by simp)
  | some fld =>
    cases fld with
    | none =>
      rw [hsp] at hs
      have : S = ⟨none⟩ := (Option.some.inj hs).symm
      rw [this]
      rfl
    | some a =>
      rw [hsp] at hs
      dsimp only at hs ⊢
      cases hm : h.maps[a]? with
      | none => rw [hm] at hs; exact absurd hs (by simp)
      | some ks =>
        rw [hm] at hs
        have : S = ⟨some ks⟩ := (Option.some.inj hs).symm
        rw [this]
        rfl

/-- Through a valid pointer, `Remove` returns, also on the `nil` map. -/
theorem Heap.Remove_isSome (h : Heap T) (s : Ptr) (S : Set T) (x : T)
    (hs : h.deref s = some S) : (h.Remove s x).isSome = true := by
  unfold Heap.deref at hs
  unfold Heap.Remove
  cases hsp : h.sets[s]? with
  | none => rw [hsp] at hs; exact absurd hs (by simp)
  | some fld =>
    cases fld with
    | none => rfl
    | some a =>
      rw [hsp] at hs
      dsimp only at hs ⊢
      cases hm : h.maps[a]? with
      | none => rw [hm] at hs; exact absurd hs (by simp)
      | some ks => rfl

/-! ## The scenarios of `set_test.go`, evaluated on the model -/

/-- `TestIntersection`: `Of(1,2,3,4).Intersection(Of(3,4,5,6))` has length 2, contains 3 and 4,
and contains neither 1 nor 5. -/
theorem scenario_TestIntersection :
    (do
      let s1 ← Of [1, 2, 3, 4]
      let s2 ← Of [3, 4, 5, 6]
      let r ← s1.Intersection s2
      pure (r.Len, r.Contains 3, r.Contains 4, r.Contains 1, r.Contains 5))
      = some ((2 : Int), true, true, false, false) := by
  decide

/-- `TestSymmetricDifference`: `Of(1,2,3).SymmetricDifference(Of(3,4,5))` has length 4,
contains 1, 2, 4 and 5, and does not contain 3. -/
theorem scenario_TestSymmetricDifference :
    (do
      let s1 ← Of [1, 2, 3]
      let s2 ← Of [3, 4, 5]
      let r ← s1.SymmetricDifference s2
      pure (r.Len, r.Contains 1, r.Contains 2, r.Contains 4, r.Contains 5, r.Contains 3))
      = some ((4 : Int), true, true, true, true, false) := by
  decide

/-- `TestIsSubset`: `Of(1,2)` is a subset of `Of(1,2,3,4)` and not the other way round. -/
theorem scenario_TestIsSubset :
    (do
      let s1 ← Of [1, 2]
      let s2 ← Of [1, 2, 3, 4]
      pure (s1.IsSubset s2, s2.IsSubset s1)) = some (true, false) := by
  decide

/-- `TestEqual`: `Of(1,2,3)` equals `Of(3,2,1)` and differs from `Of(1,2,3,4)`. -/
theorem scenario_TestEqual :
    (do
      let s1 ← Of [1, 2, 3]
      let s2 ← Of [3, 2, 1]
      let s3 ← Of [1, 2, 3, 4]
      pure (s1.Equal s2, s1.Equal s3)) = some (true, false) := by
  decide

/-- `TestUnion`: `Of(1,2,3).Union(Of(3,4,5))` has length 5. -/
theorem scenario_TestUnion :
    (do
      let s1 ← Of [1, 2, 3]
      let s2 ← Of [3, 4, 5]
      let r ← s1.Union s2
      pure r.Len) = some (5 : Int) := by
  decide

/-- `TestOf`: `Of(1, 2, 3, 2, 1)` has length 3 and contains 1, 2 and 3. -/
theorem scenario_TestOf :
    (do
      let s ← Of [1, 2, 3, 2, 1]
      pure (s.Len, s.Contains 1, s.Contains 2, s.Contains 3)) = some ((3 : Int), true, true, true) := by
  decide

/-- `TestRemove`: after `Remove(2)` on `Of(1, 2, 3)` the set lacks 2 and has length 2, and
`Remove(99)` leaves the length at 2. -/
theorem scenario_TestRemove :
    (do
      let s ← Of [1, 2, 3]
      let s1 := s.Remove 2
      let s2 := s1.Remove 99
      pure (s1.Contains 2, s1.Len, s2.Len)) = some (false, (2 : Int), (2 : Int)) := by
  decide

/-- `TestFilter`: filtering `Of(1, ..., 6)` by evenness gives length 3 with 2, 4 and 6. -/
theorem scenario_TestFilter :
    (do
      let s ← Of [1, 2, 3, 4, 5, 6]
      let evens ← s.Filter (fun n => n % 2 == 0)
      pure (evens.Len, evens.Contains 2, evens.Contains 4, evens.Contains 6))
      = some ((3 : Int), true, true, true) := by
  decide

/-- `TestClone`, on the heap: after cloning the set at address 0 and adding 4 to the clone,
the original does not contain 4. -/
theorem scenario_TestClone :
    (do
      let (h1, s2) ← Heap.sample.Clone 0
      let eq ← h1.Equal 0 s2
      let h2 ← h1.Add s2 4
      let c ← h2.Contains 0 4
      pure (eq, c)) = some (true, false) := by
  decide

/-! ## The stated properties -/

/-- C1: for all sets `A` and `B`, `A.Union(B)` and `A.Intersection(B)` return, and
`A.Union(B).Len() == A.Len() + B.Len() - A.Intersection(B).Len()`. -/
theorem union_len_inclusion_exclusion (A B : Set T) :
    ∃ u i : Set T, A.Union B = some u ∧ A.Intersection B = some i ∧
      u.Len = A.Len + B.Len - i.Len := by
  obtain ⟨u, hu, huv⟩ := Set.Union_spec A B
  obtain ⟨i, hi, hiv⟩ := Set.Intersection_spec A B
  refine ⟨_, _, hu, hi, ?_⟩
  have hsplit := List.length_eq_length_filter_add (l := GoMap.range B.items)
    (fun e => A.Contains e)
  have hcomm := filter_contains_length_comm A B
  have hilen : i.val.length = ((GoMap.range B.items).filter (fun e => A.Contains e)).length := by
    rw [hiv]
    by_cases hlt : B.Len < A.Len
    · rw [if_pos hlt]
    · rw [if_neg hlt]; exact hcomm
  have hulen : u.val.length = (GoMap.range A.items).length
      + ((GoMap.range B.items).filter (fun e => !A.Contains e)).length := by
    rw [huv, List.length_append]
  show ((u.val.length : Nat) : Int)
    = (((GoMap.range A.items).length : Nat) : Int) + (((GoMap.range B.items).length : Nat) : Int)
      - ((i.val.length : Nat) : Int)
  rw [hulen, hilen]
  omega

/-- C2 fails as stated on `A = B = Of(NaN)`: no element is contained in `A`, so every element
contained in `A` is contained in `B`, yet `A.IsSubset(B)` is false. -/
theorem isSubset_iff_fails_with_nan :
    ¬ (nanSet.IsSubset nanSet = true
        ↔ ∀ x, nanSet.Contains x = true → nanSet.Contains x = true) := by
  intro h
  exact absurd (h.mpr fun _ hx => hx) (by decide)

/-- C2, amended: `A.IsSubset(B)` is true exactly when `B` contains every element stored in
`A` (every element of `A.ToSlice()`); when `A` stores no element that differs from itself
this is: exactly when every element contained in `A` is contained in `B`, and then
`A.Len() > B.Len()` gives an element contained in `A` and not in `B`.  For all sets,
`A.Len() > B.Len()` gives an element stored in `A` that `B` does not contain, so `IsSubset`
returns what its membership loop alone returns. -/
theorem isSubset_iff_all_stored_contained (A B : Set T) :
    (A.IsSubset B = true ↔ ∀ x ∈ A.ToSlice, B.Contains x = true) ∧
    (A.selfEqual = true →
      (A.IsSubset B = true ↔ ∀ x, A.Contains x = true → B.Contains x = true) ∧
      (A.Len > B.Len → ∃ x, A.Contains x = true ∧ B.Contains x = false)) ∧
    (A.Len > B.Len → ∃ x ∈ A.ToSlice, B.Contains x = false) ∧
    A.IsSubset B = (GoMap.range A.items).all (fun elem => B.Contains elem) := by
  have hgap : A.Len > B.Len → ∃ x ∈ GoMap.range A.items, B.Contains x = false := by
    intro hlen
    by_contra hno
    push_neg at hno
    exact absurd (Set.len_le_of_all_contained A B
      fun x hx => Bool.eq_true_of_not_eq_false (hno x hx)) (not_le.mpr hlen)
  refine ⟨?_, ?_, ?_, ?_⟩
  · rw [Set.ToSlice_eq]
    exact Set.IsSubset_iff A B
  · intro hA
    refine ⟨?_, ?_⟩
    · rw [Set.IsSubset_iff]
      constructor
      · intro h x hx
        exact h x ((Set.contains_iff A x).mp hx).1
      · intro h x hx
        exact h x ((Set.contains_iff_mem_of_selfEqual A hA x).mpr hx)
    · intro hlen
      obtain ⟨x, hx, hb⟩ := hgap hlen
      exact ⟨x, (Set.contains_iff_mem_of_selfEqual A hA x).mpr hx, hb⟩
  · rw [Set.ToSlice_eq]
    exact hgap
  · rw [Bool.eq_iff_iff, Set.IsSubset_iff, List.all_eq_true]

/-- C3, the code at the failing input: `A := Of(NaN)` has the same membership as itself, and
`A.Equal(A)` returns false. -/
theorem equal_self_false_with_nan :
    Of [GoFloat.NaN] = some nanSet ∧ nanSet.Equal nanSet = false :=
  ⟨rfl, by decide⟩

/-- C4: `A.Intersection(B)` returns a set that contains `x` exactly when both `A` and `B`
contain `x`; the loop driven by `A` and the loop driven by `B` both return, with that same
membership, so the choice made by the `Len` comparison is not observable. -/
theorem intersection_contains_iff (A B : Set T) :
    ∃ r ab ba : Set T, A.Intersection B = some r ∧
      intersectionLoop A B = some ab ∧ intersectionLoop B A = some ba ∧
      ∀ x, (r.Contains x = true ↔ A.Contains x = true ∧ B.Contains x = true) ∧
        ab.Contains x = r.Contains x ∧ ba.Contains x = r.Contains x := by
  obtain ⟨r, hr, _, hrc, _⟩ := Set.contains_Intersection A B
  obtain ⟨ab, hab, habv⟩ := intersectionLoop_spec A B
  obtain ⟨ba, hba, hbav⟩ := intersectionLoop_spec B A
  have hcab : ∀ x, (Set.mk (some ab)).Contains x = true
      ↔ A.Contains x = true ∧ B.Contains x = true := by
    intro x
    rw [contains_mk_iff, habv, mem_filter_contains]
    exact ⟨fun h => h.1, fun h => ⟨h, ((Set.contains_iff A x).mp h.1).2⟩⟩
  have hcba : ∀ x, (Set.mk (some ba)).Contains x = true
      ↔ A.Contains x = true ∧ B.Contains x = true := by
    intro x
    rw [contains_mk_iff, hbav, mem_filter_contains]
    exact ⟨fun h => ⟨h.1.2, h.1.1⟩, fun h => ⟨⟨h.2, h.1⟩, ((Set.contains_iff A x).mp h.1).2⟩⟩
  refine ⟨r, _, _, hr, hab, hba, ?_⟩
  intro x
  refine ⟨hrc x, ?_, ?_⟩
  · rw [Bool.eq_iff_iff, hcab, hrc]
  · rw [Bool.eq_iff_iff, hcba, hrc]

/-- C5: `A.Union(B)` returns a set that contains `x` exactly when `A` contains `x` or `B`
contains `x`. -/
theorem union_contains_iff (A B : Set T) :
    ∃ r : Set T, A.Union B = some r ∧
      ∀ x, r.Contains x = true ↔ A.Contains x = true ∨ B.Contains x = true :=
  Set.contains_Union A B

/-- C6: `A.Difference(B)` returns a set that contains `x` exactly when `A` contains `x` and
`B` does not. -/
theorem difference_contains_iff (A B : Set T) :
    ∃ r : Set T, A.Difference B = some r ∧
      ∀ x, r.Contains x = true ↔ A.Contains x = true ∧ ¬ B.Contains x = true := by
  obtain ⟨r, hr, _, hc⟩ := Set.contains_Difference A B
  exact ⟨r, hr, hc⟩

/-- C7: `A.SymmetricDifference(B)` returns a set that contains `x` exactly when `x` is in
exactly one of `A` and `B`, that is `A.Contains(x) != B.Contains(x)`. -/
theorem symmetricDifference_contains_iff (A B : Set T) :
    ∃ r : Set T, A.SymmetricDifference B = some r ∧
      ∀ x, r.Contains x = true ↔ A.Contains x ≠ B.Contains x := by
  obtain ⟨r, hr, _, hc⟩ := Set.contains_SymmetricDifference A B
  exact ⟨r, hr, hc⟩

/-- C8 fails as stated on `A = Of(NaN)`, `B = New()`: both sides store the one NaN and `Equal`
returns false. -/
theorem symmetricDifference_equal_fails_with_nan :
    (do
      let sd ← nanSet.SymmetricDifference New
      let u ← nanSet.Union New
      let i ← nanSet.Intersection New
      let d ← u.Difference i
      pure (sd.Equal d)) = some false := by
  decide

/-- C8, amended: `A.SymmetricDifference(B).Equal(A.Union(B).Difference(A.Intersection(B)))`
evaluates without panic, and to `true` exactly when neither `A` nor `B` stores an element
that differs from itself. -/
theorem symmetricDifference_equal_union_minus_intersection (A B : Set T) :
    (do
      let sd ← A.SymmetricDifference B
      let u ← A.Union B
      let i ← A.Intersection B
      let d ← u.Difference i
      pure (sd.Equal d)) = some (A.selfEqual && B.selfEqual) := by
  obtain ⟨sd, hsd, hsdm, _⟩ := Set.contains_SymmetricDifference A B
  obtain ⟨uk, hu, huv⟩ := Set.Union_spec A B
  obtain ⟨i, hi, _, hic, _⟩ := Set.contains_Intersection A B
  obtain ⟨d, hd, hdm, _⟩ := Set.contains_Difference ⟨some uk⟩ i
  have hum : ∀ x, x ∈ GoMap.range (Set.mk (some uk)).items ↔
      x ∈ GoMap.range A.items ∨ (x ∈ GoMap.range B.items ∧ A.Contains x = false) := by
    intro x
    show x ∈ uk.val ↔ _
    rw [huv, List.mem_append, List.mem_filter]
    simp
  have heq : sd.Equal d = (A.selfEqual && B.selfEqual) := by
    rw [Bool.eq_iff_iff, Bool.and_eq_true, Set.Equal_iff]
    constructor
    · rintro ⟨hs, _, _⟩
      have hsd2 := (Set.selfEqual_iff sd).mp hs
      constructor
      · rw [Set.selfEqual_iff]
        intro x hx
        cases hxs : Comparable.selfEq x with
        | true => rfl
        | false =>
          have := hsd2 x ((hsdm x).mpr
            (Or.inl ⟨hx, Set.contains_eq_false_of_not_selfEq B x hxs⟩))
          rw [hxs] at this
          exact absurd this (by decide)
      · rw [Set.selfEqual_iff]
        intro x hx
        cases hxs : Comparable.selfEq x with
        | true => rfl
        | false =>
          have := hsd2 x ((hsdm x).mpr
            (Or.inr ⟨hx, Set.contains_eq_false_of_not_selfEq A x hxs⟩))
          rw [hxs] at this
          exact absurd this (by decide)
    · rintro ⟨hA, hB⟩
      have hA2 := (Set.selfEqual_iff A).mp hA
      have hB2 := (Set.selfEqual_iff B).mp hB
      refine ⟨?_, ?_, ?_⟩
      · rw [Set.selfEqual_iff]
        intro x hx
        rcases (hsdm x).mp hx with h | h
        · exact hA2 x h.1
        · exact hB2 x h.1
      · rw [Set.selfEqual_iff]
        intro x hx
        rcases (hum x).mp ((hdm x).mp hx).1 with h | h
        · exact hA2 x h
        · exact hB2 x h.1
      · intro x
        rw [hsdm, hdm, hum]
        have hiA := Set.contains_iff_mem_of_selfEqual A hA x
        have hiB := Set.contains_iff_mem_of_selfEqual B hB x
        have hiI := hic x
        simp only [← Bool.not_eq_true]
        rw [hiI, ← hiA, ← hiB]
        tauto
  simp [hsd, hu, hi, hd, heq]

/-- C9: `A.Intersection(B).Equal(B.Intersection(A))` evaluates without panic to `true`,
whichever operand each call iterates. -/
theorem intersection_comm_equal (A B : Set T) :
    (do
      let ab ← A.Intersection B
      let ba ← B.Intersection A
      pure (ab.Equal ba)) = some true := by
  obtain ⟨ab, hab, habm, _, habs⟩ := Set.contains_Intersection A B
  obtain ⟨ba, hba, hbam, _, hbas⟩ := Set.contains_Intersection B A
  have heq : ab.Equal ba = true := by
    rw [Set.Equal_iff]
    refine ⟨habs, hbas, ?_⟩
    intro x
    rw [habm, hbam]
    exact And.comm
  simp [hab, hba, heq]

/-- C10 fails as stated on `A = Of(NaN)`: `A.Union(A)` stores the NaN twice and
`A.Intersection(A)` stores nothing, so both `Equal(A)` calls return false. -/
theorem union_intersection_idempotent_fails_with_nan :
    (do let u ← nanSet.Union nanSet; pure (u.Equal nanSet)) = some false ∧
    (do let i ← nanSet.Intersection nanSet; pure (i.Equal nanSet)) = some false := by
  decide

/-- C10, amended: `A.Union(A).Equal(A)` and `A.Intersection(A).Equal(A)` evaluate without
panic, each to `true` exactly when `A` stores no element that differs from itself. -/
theorem union_intersection_idempotent (A : Set T) :
    (do let u ← A.Union A; pure (u.Equal A)) = some A.selfEqual ∧
    (do let i ← A.Intersection A; pure (i.Equal A)) = some A.selfEqual := by
  obtain ⟨u, hu, huv⟩ := Set.Union_spec A A
  obtain ⟨i, hi, him, _, his⟩ := Set.contains_Intersection A A
  have hum : ∀ x, x ∈ GoMap.range (Set.mk (some u)).items ↔ x ∈ GoMap.range A.items := by
    intro x
    show x ∈ u.val ↔ _
    rw [huv, List.mem_append, List.mem_filter]
    exact ⟨fun h => h.elim id fun h => h.1, Or.inl⟩
  have hequ : (Set.mk (some u)).Equal A = A.selfEqual := by
    rw [Bool.eq_iff_iff, Set.Equal_iff]
    constructor
    · exact fun h => h.2.1
    · intro hA
      refine ⟨?_, hA, hum⟩
      rw [Set.selfEqual_iff]
      intro x hx
      exact (Set.selfEqual_iff A).mp hA x ((hum x).mp hx)
  have heqi : i.Equal A = A.selfEqual := by
    rw [Bool.eq_iff_iff, Set.Equal_iff]
    constructor
    · exact fun h => h.2.1
    · intro hA
      refine ⟨his, hA, ?_⟩
      intro x
      rw [him, and_self_iff]
      exact Set.contains_iff_mem_of_selfEqual A hA x
  constructor
  · simp [hu, hequ]
  · simp [hi, heqi]

/-- C11: `A.Difference(B).Intersection(B).IsEmpty()` evaluates without panic to `true`. -/
theorem difference_intersection_isEmpty (A B : Set T) :
    (do
      let d ← A.Difference B
      let i ← d.Intersection B
      pure i.IsEmpty) = some true := by
  obtain ⟨d, hd, _, hdc⟩ := Set.contains_Difference A B
  obtain ⟨i, hi, him, _, _⟩ := Set.contains_Intersection d B
  have hnil : GoMap.range i.items = [] := by
    apply List.eq_nil_iff_forall_not_mem.mpr
    intro x hx
    have h1 := (him x).mp hx
    exact ((hdc x).mp h1.1).2 h1.2
  have hemp : i.IsEmpty = true := by
    unfold Set.IsEmpty GoMap.len
    rw [hnil]
    rfl
  simp [hd, hi, hemp]

/-- C12, the code at the failing input: for `A := Of(NaN)`, `A.IsSubset(A)` returns false. -/
theorem isSubset_self_false_with_nan :
    Of [GoFloat.NaN] = some nanSet ∧ nanSet.IsSubset nanSet = false :=
  ⟨rfl, by decide⟩

/-- C13 fails as stated on `Of(NaN, NaN)`: the slice holds the NaN twice and the length is 2,
while the arguments hold one distinct value. -/
theorem of_toSlice_fails_with_nan :
    ∃ s : Set GoFloat, Of [GoFloat.NaN, GoFloat.NaN] = some s ∧
      ¬ s.ToSlice.Nodup ∧ s.Len = 2 ∧ [GoFloat.NaN, GoFloat.NaN].dedup.length = 1 :=
  ⟨_, rfl, by decide, by decide, by decide⟩

/-- C13, amended: for every list `xs`, `Of(xs...)` returns a set `s` whose `ToSlice()` holds
exactly the values occurring in `xs` and has length `s.Len()`; when no value of `xs` differs
from itself, `ToSlice()` has no value twice and `s.Len()` is the number of distinct values of
`xs`. -/
theorem of_toSlice_each_distinct_once (xs : List T) :
    ∃ s : Set T, Of xs = some s ∧ (∀ v, v ∈ s.ToSlice ↔ v ∈ xs) ∧
      (s.ToSlice.length : Int) = s.Len ∧
      ((∀ x ∈ xs, Comparable.selfEq x = true) →
        s.ToSlice.Nodup ∧ s.Len = (xs.dedup.length : Int)) := by
  obtain ⟨r, hr, hm⟩ := Of_spec xs
  refine ⟨⟨some r⟩, hr, ?_, ?_, ?_⟩
  · intro v
    rw [Set.ToSlice_eq]
    exact hm v
  · rw [Set.ToSlice_eq]
    rfl
  · intro hxs
    have hnd : r.val.Nodup :=
      nodup_of_pairwise_of_selfEq r.property fun x hx => hxs x ((hm x).mp hx)
    refine ⟨?_, ?_⟩
    · rw [Set.ToSlice_eq]
      exact hnd
    · have hlen : r.val.length = xs.dedup.length :=
        length_eq_of_nodup_of_mem_iff hnd (List.nodup_dedup xs)
          (fun x => by rw [hm x, List.mem_dedup])
      show ((r.val.length : Nat) : Int) = _
      rw [hlen]

/-- The preceding theorem at a concrete input: `Of(1, 2, 3, 2, 1)`, whose values all equal
themselves. -/
theorem of_toSlice_each_distinct_once_witness :
    (∀ x ∈ [1, 2, 3, 2, 1], Comparable.selfEq x = true) ∧
    ∃ s : Set Nat, Of [1, 2, 3, 2, 1] = some s ∧
      s.ToSlice.Nodup ∧ s.Len = (([1, 2, 3, 2, 1] : List Nat).dedup.length : Int) := by
  refine ⟨by decide, ?_⟩
  obtain ⟨s, h1, _, _, h4⟩ := of_toSlice_each_distinct_once [1, 2, 3, 2, 1]
  exact ⟨s, h1, h4 (by decide)⟩

/-- C14 fails as stated on `s = Of(NaN)`: the clone stores the NaN, which `Contains` does not
find, so `s.Equal(s.Clone())` returns false. -/
theorem clone_equal_fails_with_nan :
    (do
      let (h1, c) ← Heap.sampleNaN.Clone 0
      h1.Equal 0 c) = some false := by
  decide

/-- C14, amended: for a set `s` of the heap, `s.Clone()` returns a set `c` at another address,
holding what the value-level `Clone` computes, with the same `Contains` answers and the same
`Len` as `s`; `s.Equal(c)` is true exactly when `s` stores no element that differs from
itself; `s` keeps its value; for `y` not in `s`, after `c.Add(y)` the call `s.Contains(y)`
is still false and `s.Len()` is what it was before the clone was made; and `s` keeps its
value after any `Add`, `Remove` or `Clear` applied to `c`. -/
theorem clone_independent (h : Heap T) (s : Ptr) (S : Set T) (hs : h.deref s = some S) :
    ∃ h1 c, h.Clone s = some (h1, c) ∧ c ≠ s ∧
      h1.deref c = S.Clone ∧
      (∀ y, h1.Contains c y = h1.Contains s y) ∧
      h1.Len c = h1.Len s ∧
      h1.Equal s c = some S.selfEqual ∧
      h1.deref s = some S ∧
      (∀ y, S.Contains y = false →
        ∃ h2, h1.Add c y = some h2 ∧ h2.Contains s y = some false ∧ h2.Len s = h.Len s) ∧
      (∀ y, ∃ h2, h1.Add c y = some h2 ∧ h2.deref s = some S) ∧
      (∀ y, ∃ h2, h1.Remove c y = some h2 ∧ h2.deref s = some S) ∧
      (∃ h2, h1.Clear c = some h2 ∧ h2.deref s = some S) := by
  obtain ⟨h1, c, hres, hc, hframe⟩ :=
    Heap.returnsFresh_of_eq h (h.Clone s) _ (Heap.Clone_returns h s S hs)
  obtain ⟨hne, hkeep, hadd, hrem, hclr⟩ := hframe s S hs
  have hval : (Keys.addAll (fun _ => true) (GoMap.range S.items) ⟨[], List.Pairwise.nil⟩).val
      = GoMap.range S.items := by
    rw [Keys.addAll_new_val]
    simp
  have hequal : S.Equal ⟨some (Keys.addAll (fun _ => true) (GoMap.range S.items)
      ⟨[], List.Pairwise.nil⟩)⟩ = S.selfEqual := by
    rw [Bool.eq_iff_iff, Set.Equal_iff]
    constructor
    · exact fun h => h.1
    · intro hS
      refine ⟨hS, ?_, ?_⟩
      · rw [Set.selfEqual_iff]
        intro x hx
        apply (Set.selfEqual_iff S).mp hS
        rw [← hval]
        exact hx
      · intro x
        show x ∈ GoMap.range S.items ↔ x ∈ (Keys.addAll _ _ _).val
        rw [hval]
  refine ⟨h1, c, hres, Ne.symm hne, ?_, ?_, ?_, ?_, hkeep, ?_, hadd, hrem, hclr⟩
  · rw [hc, Set.Clone_eq]
  · intro y
    unfold Heap.Contains
    rw [hc, hkeep]
    show some (GoMap.has (some (Keys.addAll _ _ _)) y) = some (GoMap.has S.items y)
    unfold GoMap.has
    show some ((Keys.addAll _ _ _).val.any _) = _
    rw [hval]
  · unfold Heap.Len
    rw [hc, hkeep]
    show some (((Keys.addAll _ _ _).val.length : Nat) : Int) = some S.Len
    rw [hval]
    rfl
  · unfold Heap.Equal
    rw [hkeep, hc]
    show some (S.Equal _) = some S.selfEqual
    rw [hequal]
  · intro y hy
    obtain ⟨h2, hh2, hd2⟩ := hadd y
    refine ⟨h2, hh2, ?_, ?_⟩
    · unfold Heap.Contains
      rw [hd2]
      show some (S.Contains y) = some false
      rw [hy]
    · unfold Heap.Len
      rw [hd2, hs]

/-- The preceding theorem at a concrete input: cloning the set `{1, 2}` held at address 0 of
`Heap.sample`. -/
theorem clone_independent_witness :
    Heap.sample.deref 0 = some Heap.sampleA ∧
    ∃ h1 c, Heap.sample.Clone 0 = some (h1, c) ∧ c ≠ 0 ∧
      h1.deref c = Heap.sampleA.Clone ∧
      (∀ y, h1.Contains c y = h1.Contains 0 y) ∧
      h1.Len c = h1.Len 0 ∧
      h1.Equal 0 c = some Heap.sampleA.selfEqual ∧
      h1.deref 0 = some Heap.sampleA ∧
      (∀ y, Heap.sampleA.Contains y = false →
        ∃ h2, h1.Add c y = some h2 ∧ h2.Contains 0 y = some false ∧
          h2.Len 0 = Heap.sample.Len 0) ∧
      (∀ y, ∃ h2, h1.Add c y = some h2 ∧ h2.deref 0 = some Heap.sampleA) ∧
      (∀ y, ∃ h2, h1.Remove c y = some h2 ∧ h2.deref 0 = some Heap.sampleA) ∧
      (∃ h2, h1.Clear c = some h2 ∧ h2.deref 0 = some Heap.sampleA) :=
  ⟨rfl, clone_independent Heap.sample 0 Heap.sampleA rfl⟩

/-- C15 fails as stated on the zero value of `Set[int]`, whose map is `nil`: `Add(1)` panics,
so there is no set afterwards that contains 1. -/
theorem add_fails_on_zero_value :
    ¬ ∃ s' : Set Nat, (Set.mk none : Set Nat).Add 1 = some s' ∧ s'.Contains 1 = true := by
  rintro ⟨s', h, _⟩
  exact absurd h (by simp [Set.Add, GoMap.assign])

/-- C15, amended: on a set whose map is allocated and for an element `x` that equals itself,
`s.Add(x)` returns; afterwards `Contains(x)` is true, `Contains(y)` is what it was for every
`y != x`, and `Len()` is unchanged when `x` was present and one more otherwise. -/
theorem add_contains_and_len (s : Set T) (x : T) (hs : s.items.isSome = true)
    (hx : Comparable.selfEq x = true) :
    ∃ s' : Set T, s.Add x = some s' ∧ s'.Contains x = true ∧
      (∀ y, y ≠ x → s'.Contains y = s.Contains y) ∧
      s'.Len = (if s.Contains x = true then s.Len else s.Len + 1) := by
  obtain ⟨ks, hks, hadd⟩ := Set.Add_allocated s x hs
  refine ⟨⟨some (Keys.store ks x)⟩, hadd, ?_, ?_, ?_⟩
  · rw [contains_mk_iff, Keys.mem_store]
    exact ⟨Or.inr rfl, hx⟩
  · intro y hy
    rw [Bool.eq_iff_iff, contains_mk_iff, Set.contains_iff, hks, Keys.mem_store]
    exact ⟨fun h => ⟨h.1.resolve_right hy, h.2⟩, fun h => ⟨Or.inl h.1, h.2⟩⟩
  · have hlen : s.Len = ((ks.val.length : Nat) : Int) := by
      rw [Set.len_eq_length, hks]; rfl
    have hcon : s.Contains x = ks.val.any (fun a => goEq a x) := by
      unfold Set.Contains GoMap.has
      rw [hks]
      rfl
    show (((Keys.store ks x).val.length : Nat) : Int) = _
    rw [Keys.store_val, hcon, hlen]
    by_cases h : ks.val.any (fun a => goEq a x) = true
    · rw [if_pos h, if_pos h]
    · rw [if_neg h, if_neg h]
      simp

/-- The preceding theorem at a concrete input: adding 2 to the allocated set `{1, 2}`. -/
theorem add_contains_and_len_witness :
    Heap.sampleA.items.isSome = true ∧ Comparable.selfEq (2 : Nat) = true ∧
    ∃ s' : Set Nat, Heap.sampleA.Add 2 = some s' ∧ s'.Contains 2 = true ∧
      (∀ y, y ≠ 2 → s'.Contains y = Heap.sampleA.Contains y) ∧
      s'.Len = (if Heap.sampleA.Contains 2 = true then Heap.sampleA.Len
        else Heap.sampleA.Len + 1) :=
  ⟨rfl, rfl, add_contains_and_len Heap.sampleA 2 rfl rfl⟩

/-- C16: `s.Remove(x)` never fails; afterwards `Contains(x)` is false, `Contains(y)` is what
it was for every `y != x`, `Len()` is one less when `x` was present, and the set is unchanged
when `x` was absent. -/
theorem remove_contains_and_len (s : Set T) (x : T) :
    (s.Remove x).Contains x = false ∧
    (∀ y, y ≠ x → (s.Remove x).Contains y = s.Contains y) ∧
    (s.Remove x).Len = (if s.Contains x = true then s.Len - 1 else s.Len) ∧
    (s.Contains x = false → s.Remove x = s) := by
  cases s with
  | mk items =>
    cases items with
    | none =>
      refine ⟨rfl, fun _ _ => rfl, ?_, fun _ => rfl⟩
      rw [if_neg]
      · rfl
      · rw [Set.contains_iff]
        exact fun h => List.not_mem_nil x h.1
    | some ks =>
      have hmem : ∀ y, y ∈ GoMap.range (Set.Remove ⟨some ks⟩ x).items
          ↔ y ∈ ks.val ∧ goEq y x = false := by
        intro y
        show y ∈ ks.val.filter (fun a => !goEq a x) ↔ _
        rw [List.mem_filter]
        simp
      have hcon : (Set.mk (some ks)).Contains x = true
          ↔ x ∈ ks.val ∧ Comparable.selfEq x = true := Set.contains_iff _ x
      have habsent : (Set.mk (some ks)).Contains x = false →
          ks.val.filter (fun a => !goEq a x) = ks.val := by
        intro h
        rw [List.filter_eq_self]
        intro a ha
        cases hax : goEq a x with
        | false => rfl
        | true =>
          obtain ⟨rfl, hs⟩ := (goEq_iff a x).mp hax
          have := hcon.mpr ⟨ha, hs⟩
          rw [h] at this
          exact absurd this (by decide)
      refine ⟨?_, ?_, ?_, ?_⟩
      · rw [← Bool.not_eq_true, Set.contains_iff, hmem]
        rintro ⟨⟨_, hne⟩, hs⟩
        rw [goEq_self, hs] at hne
        exact absurd hne (by decide)
      · intro y hy
        rw [Bool.eq_iff_iff, Set.contains_iff, Set.contains_iff, hmem]
        constructor
        · exact fun h => ⟨h.1.1, h.2⟩
        · intro h
          refine ⟨⟨h.1, ?_⟩, h.2⟩
          cases hyx : goEq y x with
          | false => rfl
          | true => exact absurd ((goEq_iff y x).mp hyx).1 hy
      · have hlen : (Set.mk (some ks)).Len = ((ks.val.length : Nat) : Int) := rfl
        show (((ks.val.filter (fun a => !goEq a x)).length : Nat) : Int) = _
        by_cases h : (Set.mk (some ks)).Contains x = true
        · rw [if_pos h, hlen]
          have h1 := Keys.length_filter_goEq ks x (hcon.mp h).1 (hcon.mp h).2
          have h2 := List.length_eq_length_filter_add (l := ks.val) (fun a => goEq a x)
          omega
        · rw [if_neg h, hlen, habsent (Bool.eq_false_iff.mpr h)]
      · intro h
        show Set.mk (some (Keys.remove ks x)) = Set.mk (some ks)
        congr 2
        exact Subtype.ext (habsent h)

/-- C17 fails as stated on `s = Of(NaN)` with a predicate that is always true: the filtered
set stores the NaN, which `s.Contains` does not find, so `IsSubset` returns false. -/
theorem filter_isSubset_fails_with_nan :
    (do let r ← nanSet.Filter (fun _ => true); pure (r.IsSubset nanSet)) = some false := by
  decide

/-- C17, amended: for a predicate `p` that is a function of its argument, `s.Filter(p)`
returns a set that contains `x` exactly when `s` contains `x` and `p(x)` is true; that set
is a subset of `s` according to `IsSubset` exactly when it stores no element that differs
from itself, hence whenever `s` stores none. -/
theorem filter_contains_iff (s : Set T) (p : T → Bool) :
    ∃ r : Set T, s.Filter p = some r ∧
      (∀ x, r.Contains x = true ↔ s.Contains x = true ∧ p x = true) ∧
      r.IsSubset s = r.selfEqual ∧
      (s.selfEqual = true → r.IsSubset s = true) := by
  obtain ⟨r, hr, hm, hc⟩ := Set.contains_Filter s p
  have hsub : r.IsSubset s = r.selfEqual := by
    rw [Bool.eq_iff_iff, Set.IsSubset_iff, Set.selfEqual_iff]
    constructor
    · intro h x hx
      exact ((Set.contains_iff s x).mp (h x hx)).2
    · intro h x hx
      exact (Set.contains_iff s x).mpr ⟨((hm x).mp hx).1, h x hx⟩
  refine ⟨r, hr, hc, hsub, ?_⟩
  intro hs
  rw [hsub, Set.selfEqual_iff]
  intro x hx
  exact (Set.selfEqual_iff s).mp hs x ((hm x).mp hx).1

/-- C18 as stated fails: `Add` on the zero value of `Set[T]`, whose map is `nil`, panics. -/
theorem add_on_zero_value_panics : (Set.mk none : Set Nat).Add 7 = none := rfl

/-- C18, amended: for sets `s` and `other` reached through valid pointers, whatever their
value (the zero value, whose map is `nil`, included), every operation returns, except that
`Add` returns exactly when the map of `s` is allocated.  The map is allocated in `New()`, in
the receiver after `Clear()`, in whatever `Of`, `Clone`, `Union`, `Intersection`,
`Difference`, `SymmetricDifference` and `Filter` return, and in the receiver after an `Add`
that returned; `Remove` leaves it as it is. -/
theorem operations_total {σ : Type} (h : Heap T) (s other : Ptr) (S O : Set T) (x : T)
    (xs : List T) (p : T → Bool) (fn : σ → T → σ) (init : σ)
    (hs : h.deref s = some S) (ho : h.deref other = some O) :
    ((h.Add s x).isSome = S.items.isSome ∧
     (h.Remove s x).isSome = true ∧
     (h.Contains s x).isSome = true ∧
     (h.Len s).isSome = true ∧
     (h.IsEmpty s).isSome = true ∧
     (h.Clear s).isSome = true ∧
     (h.ToSlice s).isSome = true ∧
     (h.Clone s).isSome = true ∧
     (h.Union s other).isSome = true ∧
     (h.Intersection s other).isSome = true ∧
     (h.Difference s other).isSome = true ∧
     (h.SymmetricDifference s other).isSome = true ∧
     (h.IsSubset s other).isSome = true ∧
     (h.IsSuperset s other).isSome = true ∧
     (h.Equal s other).isSome = true ∧
     (h.ForEach s fn init).isSome = true ∧
     (h.Filter s p).isSome = true) ∧
    ((New : Set T).items.isSome = true ∧
     (S.Clear).items.isSome = true ∧
     (S.Add x).isSome = S.items.isSome ∧
     (∀ s', S.Add x = some s' → s'.items.isSome = true) ∧
     (S.Remove x).items.isSome = S.items.isSome ∧
     (∃ r : Set T, Of xs = some r ∧ r.items.isSome = true) ∧
     (∃ r : Set T, S.Clone = some r ∧ r.items.isSome = true) ∧
     (∃ r : Set T, S.Union O = some r ∧ r.items.isSome = true) ∧
     (∃ r : Set T, S.Intersection O = some r ∧ r.items.isSome = true) ∧
     (∃ r : Set T, S.Difference O = some r ∧ r.items.isSome = true) ∧
     (∃ r : Set T, S.SymmetricDifference O = some r ∧ r.items.isSome = true) ∧
     (∃ r : Set T, S.Filter p = some r ∧ r.items.isSome = true)) := by
  have hlt := (Heap.bounds_of_deref h s S hs).1
  refine ⟨⟨Heap.Add_isSome h s S x hs, Heap.Remove_isSome h s S x hs, ?_, ?_, ?_, ?_, ?_, ?_,
    ?_, ?_, ?_, ?_, ?_, ?_, ?_, ?_, ?_⟩,
    ⟨rfl, rfl, ?_, ?_, ?_, ⟨_, Of_eq xs, rfl⟩, ⟨_, Set.Clone_eq S, rfl⟩,
      ⟨_, Set.Union_eq S O, rfl⟩, ⟨_, Set.Intersection_eq S O, rfl⟩,
      ⟨_, Set.Difference_eq S O, rfl⟩, ⟨_, Set.SymmetricDifference_eq S O, rfl⟩,
      ⟨_, Set.Filter_eq S p, rfl⟩⟩⟩
  · unfold Heap.Contains; rw [hs]; rfl
  · unfold Heap.Len; rw [hs]; rfl
  · unfold Heap.IsEmpty; rw [hs]; rfl
  · unfold Heap.Clear; rw [if_pos hlt]; rfl
  · unfold Heap.ToSlice; rw [hs]; rfl
  · rw [Heap.Clone_returns h s S hs]; rfl
  · rw [Heap.Union_returns h s other S O hs ho]; rfl
  · rw [Heap.Intersection_returns h s other S O hs ho]; rfl
  · rw [Heap.Difference_returns h s other S O hs ho]; rfl
  · rw [Heap.SymmetricDifference_returns h s other S O hs ho]; rfl
  · unfold Heap.IsSubset; rw [hs, ho]; rfl
  · unfold Heap.IsSuperset Heap.IsSubset; rw [hs, ho]; rfl
  · unfold Heap.Equal; rw [hs, ho]; rfl
  · unfold Heap.ForEach; rw [hs]; rfl
  · rw [Heap.Filter_returns h s S p hs]; rfl
  · cases S with
    | mk items => cases items <;> rfl
  · cases S with
    | mk items =>
      cases items with
      | none => intro s' hs'; exact absurd hs' (by simp [Set.Add, GoMap.assign])
      | some ks =>
        intro s' hs'
        have : s' = ⟨some (Keys.store ks x)⟩ := (Option.some.inj hs').symm
        rw [this]
        rfl
  · cases S with
    | mk items => cases items <;> rfl

/-- The preceding theorem at a concrete input: the sets `{1, 2}` and `{2, 3}` held at
addresses 0 and 1 of `Heap.sample`, the element 4, the arguments 1, 2 of `Of`, the predicate
"is even" and a visitor that sums the elements. -/
theorem operations_total_witness :
    Heap.sample.deref 0 = some Heap.sampleA ∧ Heap.sample.deref 1 = some Heap.sampleB ∧
    ((Heap.sample.Add 0 4).isSome = Heap.sampleA.items.isSome ∧
     (Heap.sample.Remove 0 4).isSome = true ∧
     (Heap.sample.Contains 0 4).isSome = true ∧
     (Heap.sample.Len 0).isSome = true ∧
     (Heap.sample.IsEmpty 0).isSome = true ∧
     (Heap.sample.Clear 0).isSome = true ∧
     (Heap.sample.ToSlice 0).isSome = true ∧
     (Heap.sample.Clone 0).isSome = true ∧
     (Heap.sample.Union 0 1).isSome = true ∧
     (Heap.sample.Intersection 0 1).isSome = true ∧
     (Heap.sample.Difference 0 1).isSome = true ∧
     (Heap.sample.SymmetricDifference 0 1).isSome = true ∧
     (Heap.sample.IsSubset 0 1).isSome = true ∧
     (Heap.sample.IsSuperset 0 1).isSome = true ∧
     (Heap.sample.Equal 0 1).isSome = true ∧
     (Heap.sample.ForEach 0 (fun (acc n : Nat) => acc + n) 0).isSome = true ∧
     (Heap.sample.Filter 0 (fun n => n % 2 == 0)).isSome = true) ∧
    ((New : Set Nat).items.isSome = true ∧
     (Heap.sampleA.Clear).items.isSome = true ∧
     (Heap.sampleA.Add 4).isSome = Heap.sampleA.items.isSome ∧
     (∀ s', Heap.sampleA.Add 4 = some s' → s'.items.isSome = true) ∧
     (Heap.sampleA.Remove 4).items.isSome = Heap.sampleA.items.isSome ∧
     (∃ r : Set Nat, Of [1, 2] = some r ∧ r.items.isSome = true) ∧
     (∃ r : Set Nat, Heap.sampleA.Clone = some r ∧ r.items.isSome = true) ∧
     (∃ r : Set Nat, Heap.sampleA.Union Heap.sampleB = some r ∧ r.items.isSome = true) ∧
     (∃ r : Set Nat, Heap.sampleA.Intersection Heap.sampleB = some r ∧
        r.items.isSome = true) ∧
     (∃ r : Set Nat, Heap.sampleA.Difference Heap.sampleB = some r ∧ r.items.isSome = true) ∧
     (∃ r : Set Nat, Heap.sampleA.SymmetricDifference Heap.sampleB = some r ∧
        r.items.isSome = true) ∧
     (∃ r : Set Nat, Heap.sampleA.Filter (fun n => n % 2 == 0) = some r ∧
        r.items.isSome = true)) :=
  ⟨rfl, rfl, operations_total Heap.sample 0 1 Heap.sampleA Heap.sampleB 4 [1, 2]
    (fun n => n % 2 == 0) (fun (acc n : Nat) => acc + n) 0 rfl rfl⟩

/-- C19: for sets `A` at address `a` and `B` at address `b` of a heap, each of `A.Union(B)`,
`A.Intersection(B)`, `A.Difference(B)`, `A.SymmetricDifference(B)` and `A.Filter(p)` returns
the set the value-level method computes, at a new address; `A`, `B` and every other set of
the heap keep their value (hence their membership and `Len`), and keep it after any later
`Add`, `Remove` or `Clear` applied to the returned set. -/
theorem derived_sets_leave_operands (h : Heap T) (a b : Ptr) (A B : Set T) (p : T → Bool)
    (ha : h.deref a = some A) (hb : h.deref b = some B) :
    (∃ v, A.Union B = some v ∧ h.ReturnsFresh (h.Union a b) v) ∧
    (∃ v, A.Intersection B = some v ∧ h.ReturnsFresh (h.Intersection a b) v) ∧
    (∃ v, A.Difference B = some v ∧ h.ReturnsFresh (h.Difference a b) v) ∧
    (∃ v, A.SymmetricDifference B = some v ∧
      h.ReturnsFresh (h.SymmetricDifference a b) v) ∧
    (∃ v, A.Filter p = some v ∧ h.ReturnsFresh (h.Filter a p) v) :=
  ⟨⟨_, Set.Union_eq A B, Heap.returnsFresh_of_eq h _ _ (Heap.Union_returns h a b A B ha hb)⟩,
   ⟨_, Set.Intersection_eq A B,
     Heap.returnsFresh_of_eq h _ _ (Heap.Intersection_returns h a b A B ha hb)⟩,
   ⟨_, Set.Difference_eq A B,
     Heap.returnsFresh_of_eq h _ _ (Heap.Difference_returns h a b A B ha hb)⟩,
   ⟨_, Set.SymmetricDifference_eq A B,
     Heap.returnsFresh_of_eq h _ _ (Heap.SymmetricDifference_returns h a b A B ha hb)⟩,
   ⟨_, Set.Filter_eq A p, Heap.returnsFresh_of_eq h _ _ (Heap.Filter_returns h a A p ha)⟩⟩

/-- The preceding theorem at a concrete input: the sets `{1, 2}` and `{2, 3}` held at
addresses 0 and 1 of `Heap.sample`, and the predicate "is even". -/
theorem derived_sets_leave_operands_witness :
    Heap.sample.deref 0 = some Heap.sampleA ∧ Heap.sample.deref 1 = some Heap.sampleB ∧
    ((∃ v, Heap.sampleA.Union Heap.sampleB = some v ∧
        Heap.sample.ReturnsFresh (Heap.sample.Union 0 1) v) ∧
     (∃ v, Heap.sampleA.Intersection Heap.sampleB = some v ∧
        Heap.sample.ReturnsFresh (Heap.sample.Intersection 0 1) v) ∧
     (∃ v, Heap.sampleA.Difference Heap.sampleB = some v ∧
        Heap.sample.ReturnsFresh (Heap.sample.Difference 0 1) v) ∧
     (∃ v, Heap.sampleA.SymmetricDifference Heap.sampleB = some v ∧
        Heap.sample.ReturnsFresh (Heap.sample.SymmetricDifference 0 1) v) ∧
     (∃ v, Heap.sampleA.Filter (fun n => n % 2 == 0) = some v ∧
        Heap.sample.ReturnsFresh (Heap.sample.Filter 0 (fun n => n % 2 == 0)) v)) :=
  ⟨rfl, rfl, derived_sets_leave_operands Heap.sample 0 1 Heap.sampleA Heap.sampleB
    (fun n => n % 2 == 0) rfl rfl⟩

/-- C20: if `A.IsSubset(B)` and `B.IsSubset(A)` are both true then `A.Equal(B)` and
`B.Equal(A)` are both true; `A.Equal(B)` is true exactly when each set is a subset of the
other; and `A.Equal(B)` always returns what `B.Equal(A)` returns. -/
theorem isSubset_antisymm_equal (A B : Set T) :
    (A.IsSubset B = true ∧ B.IsSubset A = true → A.Equal B = true ∧ B.Equal A = true) ∧
    (A.Equal B = true ↔ A.IsSubset B = true ∧ B.IsSubset A = true) ∧
    A.Equal B = B.Equal A := by
  have hiff : ∀ X Y : Set T, X.Equal Y = true ↔ X.IsSubset Y = true ∧ Y.IsSubset X = true := by
    intro X Y
    rw [Set.Equal_iff, Set.IsSubset_iff, Set.IsSubset_iff]
    constructor
    · rintro ⟨hx, hy, hm⟩
      exact ⟨fun x h => (Set.contains_iff Y x).mpr ⟨(hm x).mp h, (Set.selfEqual_iff X).mp hx x h⟩,
        fun x h => (Set.contains_iff X x).mpr ⟨(hm x).mpr h, (Set.selfEqual_iff Y).mp hy x h⟩⟩
    · rintro ⟨hxy, hyx⟩
      exact ⟨Set.selfEqual_of_all_contained X Y hxy, Set.selfEqual_of_all_contained Y X hyx,
        fun x => ⟨fun h => ((Set.contains_iff Y x).mp (hxy x h)).1,
          fun h => ((Set.contains_iff X x).mp (hyx x h)).1⟩⟩
  refine ⟨?_, hiff A B, ?_⟩
  · intro h
    exact ⟨(hiff A B).mpr h, (hiff B A).mpr ⟨h.2, h.1⟩⟩
  · rw [Bool.eq_iff_iff, hiff A B, hiff B A]
    exact And.comm

end GoxSet
